import Mathlib

/-!
# Verification of the `rsff` scanlation-file-format core

Shallow embedding of the `rsff` Rust crate (files `src/lib.rs`,
`src/balloon.rs`, `src/consts.rs`) and proofs about the claims of its
natural-language specification.

Modelling conventions:
* Rust `String` values are modelled as `List Char`; `String::len` (a byte
  count) is modelled by `utf8Len`, the sum of the UTF-8 sizes of the chars.
* Byte-indexed slicing (`&s[a..b]`), which panics on out-of-range indices or
  non-boundary offsets, is modelled by `byteTake`/`byteDrop` returning
  `Option`; `none` models the panic.
* Bytes (`u8`, image data) are modelled as `Nat`; faithfulness assumptions
  state `< 256` where it matters.
* Fallible operations return `Except`; a dedicated error constructor
  `panicked` models a Rust panic (process abort), kept distinct from the
  typed errors the function signature can actually return.
* The external XML parser (`roxmltree`) is modelled by an executable
  recursive-descent parser over the XML fragment the crate exercises:
  elements with attributes and text, no entity references (a raw `&` or a
  stray `<` in content is a parse error, as in `roxmltree`). As in
  `roxmltree`/`xmlparser`, a character outside the XML 1.0 `Char`
  production is a parse error (`NonXmlChar`), a `]]>` sequence in character
  data is a parse error, parsed text undergoes XML end-of-line
  normalization (`\x0d\n` and `\x0d` become `\n`), and attribute values
  additionally undergo attribute-value normalization (tab and `\n` become
  spaces).
-/

/-- Chars of a string literal; Rust strings are modelled as `List Char`. -/
def cs (s : String) : List Char := s.toList

/-- Rust `String::len`: the length in UTF-8 bytes. -/
def utf8Len (l : List Char) : Nat := (l.map Char.utf8Size).sum

/-- Model of `&s[..n]` (byte-indexed): `none` models the Rust panic when `n`
exceeds the byte length or is not a character boundary. -/
def byteTake : List Char → Nat → Option (List Char)
  | _, 0 => some []
  | [], _ + 1 => none
  | c :: rest, n + 1 =>
    if c.utf8Size ≤ n + 1 then (byteTake rest (n + 1 - c.utf8Size)).map (c :: ·)
    else none

/-- Model of `&s[n..]` (byte-indexed): `none` models the Rust panic when `n`
exceeds the byte length or is not a character boundary. -/
def byteDrop : List Char → Nat → Option (List Char)
  | l, 0 => some l
  | [], _ + 1 => none
  | c :: rest, n + 1 =>
    if c.utf8Size ≤ n + 1 then byteDrop rest (n + 1 - c.utf8Size)
    else none

/-- Rust `char::is_whitespace` (the Unicode `White_Space` property). -/
def rustWs (c : Char) : Bool :=
  c.toNat ∈ [0x9, 0xA, 0xB, 0xC, 0xD, 0x20, 0x85, 0xA0, 0x1680,
    0x2000, 0x2001, 0x2002, 0x2003, 0x2004, 0x2005, 0x2006, 0x2007,
    0x2008, 0x2009, 0x200A, 0x2028, 0x2029, 0x202F, 0x205F, 0x3000]

/-- Rust `str::trim`. -/
def trimChars (l : List Char) : List Char :=
  ((l.dropWhile rustWs).reverse.dropWhile rustWs).reverse

/-- `l` starts with `p`. -/
def startsWith : List Char → List Char → Bool
  | _, [] => true
  | [], _ :: _ => false
  | c :: rest, p :: ps => c = p && startsWith rest ps

/-- Rust `str::contains` for a literal pattern (substring containment). -/
def containsSub : List Char → List Char → Bool
  | [], pat => startsWith [] pat
  | l@(_ :: rest), pat => startsWith l pat || containsSub rest pat

/-- Rust `str::split("\n")`. -/
def splitNl : List Char → List (List Char)
  | [] => [[]]
  | c :: rest =>
    if c = '\n' then [] :: splitNl rest
    else
      match splitNl rest with
      | h :: t => (c :: h) :: t
      | [] => [[c]]

/-- `consts.rs`: the `TYPES` enum of balloon kinds. -/
inductive TYPES where
  | DIALOGUE
  | SQUARE
  | THINKING
  | ST
  | OT
deriving DecidableEq

/-- `consts.rs`: `impl Default for TYPES` returns `DIALOGUE`. -/
instance : Inhabited TYPES := ⟨TYPES.DIALOGUE⟩

/-- `balloon.rs`: the `BalloonImage` struct (bytes as `Nat`). -/
structure BalloonImage where
  img_type : List Char
  img_data : List Nat
deriving DecidableEq

/-- `balloon.rs`: the `Balloon` struct, with its `Default` values. -/
structure Balloon where
  tl_content : List (List Char) := []
  pr_content : List (List Char) := []
  comments : List (List Char) := []
  btype : TYPES := TYPES.DIALOGUE
  balloon_img : Option BalloonImage := none
deriving DecidableEq

instance : Inhabited Balloon := ⟨{}⟩

namespace Balloon

/-- `Balloon::tl_chars`: summed `String::len` (bytes) of the tl lines. -/
def tl_chars (b : Balloon) : Nat := (b.tl_content.map utf8Len).sum

/-- `Balloon::pr_chars`. -/
def pr_chars (b : Balloon) : Nat := (b.pr_content.map utf8Len).sum

/-- `Balloon::comments_chars`. -/
def comments_chars (b : Balloon) : Nat := (b.comments.map utf8Len).sum

/-- `Balloon::line_count`: pr line count if pr content exists, else tl. -/
def line_count (b : Balloon) : Nat :=
  if b.pr_content.length > 0 then b.pr_content.length else b.tl_content.length

end Balloon

/-- The plain-text line header of each balloon type (`Balloon::to_string`). -/
def typeHeader : TYPES → List Char
  | TYPES.DIALOGUE => cs "(): "
  | TYPES.OT => cs "OT: "
  | TYPES.SQUARE => cs "[]: "
  | TYPES.ST => cs "ST: "
  | TYPES.THINKING => cs "\x7b\x7d: "

/-- `Balloon::to_xml`'s `type` attribute text for each balloon type. -/
def battr : TYPES → List Char
  | TYPES.DIALOGUE => cs "Dialogue"
  | TYPES.SQUARE => cs "Square"
  | TYPES.ST => cs "ST"
  | TYPES.OT => cs "OT"
  | TYPES.THINKING => cs "Thinking"

/-- One 6-bit group to a URL-safe base64 alphabet char (`base64` crate,
`alphabet::URL_SAFE`). -/
def b64c (n : Nat) : Char :=
  if n < 26 then Char.ofNat (65 + n)
  else if n < 52 then Char.ofNat (97 + (n - 26))
  else if n < 62 then Char.ofNat (48 + (n - 52))
  else if n = 62 then '-'
  else '_'

/-- URL-safe, unpadded base64 encoding of a byte sequence (the crate's
`engine::GeneralPurpose::new(&alphabet::URL_SAFE, general_purpose::NO_PAD)`
encoder, `B64.encode`). -/
def b64encode : List Nat → List Char
  | [] => []
  | [a] => [b64c (a / 4), b64c (a % 4 * 16)]
  | [a, b] => [b64c (a / 4), b64c (a % 4 * 16 + b / 16), b64c (b % 16 * 4)]
  | a :: b :: c :: rest =>
    b64c (a / 4) :: b64c (a % 4 * 16 + b / 16) :: b64c (b % 16 * 4 + c / 64)
      :: b64c (c % 64) :: b64encode rest

/-- Inverse of the URL-safe alphabet; `none` on a char outside it. -/
def b64d (c : Char) : Option Nat :=
  if 'A' ≤ c ∧ c ≤ 'Z' then some (c.toNat - 65)
  else if 'a' ≤ c ∧ c ≤ 'z' then some (26 + (c.toNat - 97))
  else if '0' ≤ c ∧ c ≤ '9' then some (52 + (c.toNat - 48))
  else if c = '-' then some 62
  else if c = '_' then some 63
  else none

/-- URL-safe, unpadded base64 decoding (`B64.decode`): rejects a length
`≡ 1 (mod 4)`, chars outside the alphabet, and nonzero trailing bits (the
crate's default canonical-check behaviour). -/
def b64decode : List Char → Option (List Nat)
  | [] => some []
  | [_] => none
  | [c1, c2] => do
    let v1 ← b64d c1
    let v2 ← b64d c2
    if v2 % 16 = 0 then some [v1 * 4 + v2 / 16] else none
  | [c1, c2, c3] => do
    let v1 ← b64d c1
    let v2 ← b64d c2
    let v3 ← b64d c3
    if v3 % 4 = 0 then some [v1 * 4 + v2 / 16, v2 % 16 * 16 + v3 / 4] else none
  | c1 :: c2 :: c3 :: c4 :: rest => do
    let v1 ← b64d c1
    let v2 ← b64d c2
    let v3 ← b64d c3
    let v4 ← b64d c4
    let tail ← b64decode rest
    some ((v1 * 4 + v2 / 16) :: (v2 % 16 * 16 + v3 / 4) :: (v3 % 4 * 64 + v4) :: tail)

namespace Balloon

/-- `Balloon::to_string`: plain-text rendering; pr content wins when present,
lines joined with `"\n//\n"`. -/
def to_string (b : Balloon) : List Char :=
  if b.pr_content.length > 0 then
    List.intercalate (cs "\n//\n") (b.pr_content.map (fun pr => typeHeader b.btype ++ pr))
  else
    List.intercalate (cs "\n//\n") (b.tl_content.map (fun tl => typeHeader b.btype ++ tl))

/-- `Balloon::to_xml`: XML rendering; tag order TL*, PR*, Comment*, img. -/
def to_xml (b : Balloon) : List Char :=
  cs "<Balloon type=\"" ++ battr b.btype ++ cs "\">"
  ++ (b.tl_content.map (fun tl => cs "<TL>" ++ tl ++ cs "</TL>")).flatten
  ++ (b.pr_content.map (fun pr => cs "<PR>" ++ pr ++ cs "</PR>")).flatten
  ++ (b.comments.map (fun c => cs "<Comment>" ++ c ++ cs "</Comment>")).flatten
  ++ (match b.balloon_img with
      | none => []
      | some i => cs "<img type=\"" ++ i.img_type ++ cs "\">"
                  ++ b64encode i.img_data ++ cs "</img>")
  ++ cs "</Balloon>"

end Balloon

/-- `lib.rs`: the `Document` struct, with its `Default` values. -/
structure Document where
  METADATA_SCRIPT_VERSION : List Char := cs "Scanlation Script File v0.2.0"
  METADATA_APP_VERSION : List Char := []
  METADATA_INFO : List Char := cs "Num"
  balloons : List Balloon := []
deriving DecidableEq

instance : Inhabited Document := ⟨{}⟩

/-- Decimal rendering of a `usize` (Rust `format!("{}", n)`), with fuel for
structural recursion; fuel `n + 1` always suffices. -/
def natToCharsAux : Nat → Nat → List Char
  | 0, _ => []
  | f + 1, n =>
    if n < 10 then [Char.ofNat (48 + n)]
    else natToCharsAux f (n / 10) ++ [Char.ofNat (48 + n % 10)]

/-- Decimal rendering of a `usize` (Rust `format!("{}", n)`). -/
def natToChars (n : Nat) : List Char := natToCharsAux (n + 1) n

namespace Document

/-- `Document::tl_chars`. -/
def tl_chars (d : Document) : Nat := (d.balloons.map Balloon.tl_chars).sum

/-- `Document::pr_chars`. -/
def pr_chars (d : Document) : Nat := (d.balloons.map Balloon.pr_chars).sum

/-- `Document::comment_chars`. -/
def comment_chars (d : Document) : Nat := (d.balloons.map Balloon.comments_chars).sum

/-- `Document::line_count`. -/
def line_count (d : Document) : Nat := (d.balloons.map Balloon.line_count).sum

/-- `Document::len`. -/
def len (d : Document) : Nat := d.balloons.length

/-- `Document::to_string`: lossy plain-text rendering, balloons joined by a
blank line. -/
def to_string (d : Document) : List Char :=
  List.intercalate (cs "\n\n") (d.balloons.map Balloon.to_string)

/-- `Document::to_xml`: the canonical XML rendering. -/
def to_xml (d : Document) : List Char :=
  cs "<Document><Metadata>"
  ++ cs "<Script>" ++ d.METADATA_SCRIPT_VERSION
  ++ cs "</Script><App>" ++ d.METADATA_APP_VERSION
  ++ cs "</App><Info>" ++ d.METADATA_INFO ++ cs "</Info>"
  ++ cs "<TLLength>" ++ natToChars d.tl_chars
  ++ cs "</TLLength><PRLength>" ++ natToChars d.pr_chars
  ++ cs "</PRLength><CMLength>" ++ natToChars d.comment_chars
  ++ cs "</CMLength><BalloonCount>" ++ natToChars d.balloons.length
  ++ cs "</BalloonCount><LineCount>" ++ natToChars d.line_count
  ++ cs "</LineCount>"
  ++ cs "</Metadata><Balloons>"
  ++ (d.balloons.map Balloon.to_xml).flatten
  ++ cs "</Balloons></Document>"

end Document

/-! ## The plain-text parser (`Document::txt_to_doc`) -/

/-- A Rust panic (process abort), as distinct from a typed error. -/
inductive RPanic where
  | panicked
deriving DecidableEq

/-- `txt.split("\n").filter(|s| !s.is_empty())` from `Document::txt_to_doc`. -/
def txtLines (l : List Char) : List (List Char) :=
  (splitNl l).filter (fun s => !s.isEmpty)

/-- `Document::decide_b_type_from_txt_line_headers`: reads `&ln[0..2]`
(byte slice; `none` models the panic) and maps the prefix to a type,
defaulting to `DIALOGUE`. -/
def decide_b_type_from_txt_line_headers (ln : List Char) : Option TYPES :=
  match byteTake ln 2 with
  | none => none
  | some s =>
    some (if s = cs "()" then TYPES.DIALOGUE
      else if s = cs "OT" then TYPES.OT
      else if s = cs "[]" then TYPES.SQUARE
      else if s = cs "ST" then TYPES.ST
      else if s = cs "\x7b\x7d" then TYPES.THINKING
      else TYPES.DIALOGUE)

/-- A balloon freshly built by the plain-text parser: default fields except
the type and the translation lines. -/
def mkTxtBalloon (bt : TYPES) (ls : List (List Char)) : Balloon :=
  { btype := bt, tl_content := ls }

/-- The loop of `Document::txt_to_doc` over the filtered lines: `texts` is
the `texts` accumulator, `flag` is `is_previous_double_slash`; returns the
balloons pushed by the remaining iterations. -/
def txtLoop : List (List Char) → Bool → List (List Char) → Except RPanic (List Balloon)
  | _, _, [] => Except.ok []
  | texts, flag, current :: rest =>
    if containsSub current (cs "//") then txtLoop texts flag rest
    else
      match decide_b_type_from_txt_line_headers current with
      | none => Except.error RPanic.panicked
      | some bt =>
        match byteDrop current 4 with
        | none => Except.error RPanic.panicked
        | some tl =>
          let content := trimChars tl
          if containsSub (rest.head?.getD []) (cs "//") then
            txtLoop (texts ++ [content]) true rest
          else if flag then
            (txtLoop (texts ++ [content]) false rest).map
              (fun bs => mkTxtBalloon bt (texts ++ [content]) :: bs)
          else
            (txtLoop texts false rest).map (fun bs => mkTxtBalloon bt [content] :: bs)

/-- `Document::txt_to_doc`: parse lossy text into a Document. -/
def txt_to_doc (txt : List Char) : Except RPanic Document :=
  (txtLoop [] false (txtLines txt)).map (fun bs => { balloons := bs })

/-! Step lemmas describing one iteration of `txtLoop`. -/

theorem txtLoop_marker {current : List Char} (texts : List (List Char)) (flag : Bool)
    (rest : List (List Char)) (h : containsSub current (cs "//") = true) :
    txtLoop texts flag (current :: rest) = txtLoop texts flag rest := by
  simp [txtLoop, h]

theorem txtLoop_panic_header {current : List Char} (texts : List (List Char)) (flag : Bool)
    (rest : List (List Char)) (h : containsSub current (cs "//") = false)
    (h2 : decide_b_type_from_txt_line_headers current = none) :
    txtLoop texts flag (current :: rest) = Except.error RPanic.panicked := by
  simp [txtLoop, h, h2]

theorem txtLoop_panic_slice {current : List Char} (texts : List (List Char)) (flag : Bool)
    (rest : List (List Char)) (h : containsSub current (cs "//") = false)
    {bt : TYPES} (h2 : decide_b_type_from_txt_line_headers current = some bt)
    (h3 : byteDrop current 4 = none) :
    txtLoop texts flag (current :: rest) = Except.error RPanic.panicked := by
  simp [txtLoop, h, h2, h3]

theorem txtLoop_accum {current : List Char} (texts : List (List Char)) (flag : Bool)
    (rest : List (List Char)) (h : containsSub current (cs "//") = false)
    {bt : TYPES} (h2 : decide_b_type_from_txt_line_headers current = some bt)
    {tl : List Char} (h3 : byteDrop current 4 = some tl)
    (h4 : containsSub (rest.head?.getD []) (cs "//") = true) :
    txtLoop texts flag (current :: rest) = txtLoop (texts ++ [trimChars tl]) true rest := by
  simp [txtLoop, h, h2, h3, h4]

theorem txtLoop_emit_group {current : List Char} (texts : List (List Char))
    (rest : List (List Char)) (h : containsSub current (cs "//") = false)
    {bt : TYPES} (h2 : decide_b_type_from_txt_line_headers current = some bt)
    {tl : List Char} (h3 : byteDrop current 4 = some tl)
    (h4 : containsSub (rest.head?.getD []) (cs "//") = false) :
    txtLoop texts true (current :: rest)
      = (txtLoop (texts ++ [trimChars tl]) false rest).map
          (fun bs => mkTxtBalloon bt (texts ++ [trimChars tl]) :: bs) := by
  simp [txtLoop, h, h2, h3, h4]

theorem txtLoop_emit_single {current : List Char} (texts : List (List Char))
    (rest : List (List Char)) (h : containsSub current (cs "//") = false)
    {bt : TYPES} (h2 : decide_b_type_from_txt_line_headers current = some bt)
    {tl : List Char} (h3 : byteDrop current 4 = some tl)
    (h4 : containsSub (rest.head?.getD []) (cs "//") = false) :
    txtLoop texts false (current :: rest)
      = (txtLoop texts false rest).map (fun bs => mkTxtBalloon bt [trimChars tl] :: bs) := by
  simp [txtLoop, h, h2, h3, h4]

/-- A line group forming a trailing "dangling continuation": alternating
content lines (non-marker, with both byte slices in bounds) and marker lines
(containing `"//"`), ending with a marker. -/
def danglingB : List (List Char) → Bool
  | c :: m :: rest =>
    !containsSub c (cs "//") && (byteTake c 2).isSome && (byteDrop c 4).isSome
      && containsSub m (cs "//") && (rest.isEmpty || danglingB rest)
  | _ => false

/-- Processing a dangling continuation group emits no balloon, from any
accumulator state. -/
theorem txtLoop_dangling_nil :
    ∀ (n : Nat) (l : List (List Char)), l.length ≤ n → danglingB l = true →
      ∀ (texts : List (List Char)) (flag : Bool), txtLoop texts flag l = Except.ok [] := by
  intro n
  induction n with
  | zero =>
    intro l hl hd texts flag
    cases l with
    | nil => simp [danglingB] at hd
    | cons c l' => simp at hl
  | succ n ih =>
    intro l hl hd texts flag
    match l with
    | [] => simp [danglingB] at hd
    | [c] => simp [danglingB] at hd
    | c :: m :: rest =>
      simp only [danglingB, Bool.and_eq_true, Bool.not_eq_true'] at hd
      obtain ⟨⟨⟨⟨hc, htk⟩, hdr⟩, hm⟩, hrest⟩ := hd
      obtain ⟨s, hs⟩ := Option.isSome_iff_exists.mp htk
      obtain ⟨tl, htl⟩ := Option.isSome_iff_exists.mp hdr
      have hbt : ∃ bt, decide_b_type_from_txt_line_headers c = some bt := by
        simp [decide_b_type_from_txt_line_headers, hs]
      obtain ⟨bt, hbt⟩ := hbt
      have hnext : containsSub ((m :: rest).head?.getD []) (cs "//") = true := by
        simpa using hm
      rw [txtLoop_accum texts flag (m :: rest) hc hbt htl hnext,
        txtLoop_marker _ true rest hm]
      cases rest with
      | nil => simp [txtLoop]
      | cons r rest' =>
        have hd' : danglingB (r :: rest') = true := by
          simpa using hrest
        have hl' : (r :: rest').length ≤ n := by
          simp at hl ⊢; omega
        exact ih _ hl' hd' _ _

/-- A dangling continuation group at the end of the line list contributes
nothing: the loop behaves as if the trailing group were absent. -/
theorem txtLoop_append_dangling :
    ∀ (pre : List (List Char)) (texts : List (List Char)) (flag : Bool)
      (suf : List (List Char)), danglingB suf = true →
      txtLoop texts flag (pre ++ suf) = txtLoop texts flag pre := by
  intro pre
  induction pre with
  | nil =>
    intro texts flag suf hd
    rw [List.nil_append, txtLoop_dangling_nil suf.length suf le_rfl hd texts flag]
    simp [txtLoop]
  | cons p pre' ih =>
    intro texts flag suf hd
    by_cases hp : containsSub p (cs "//") = true
    · rw [List.cons_append, txtLoop_marker texts flag _ hp, txtLoop_marker texts flag _ hp]
      exact ih texts flag suf hd
    · rw [Bool.not_eq_true] at hp
      cases hbt : decide_b_type_from_txt_line_headers p with
      | none =>
        rw [List.cons_append, txtLoop_panic_header texts flag _ hp hbt,
          txtLoop_panic_header texts flag _ hp hbt]
      | some bt =>
        cases htl : byteDrop p 4 with
        | none =>
          rw [List.cons_append, txtLoop_panic_slice texts flag _ hp hbt htl,
            txtLoop_panic_slice texts flag _ hp hbt htl]
        | some tl =>
          cases pre' with
          | nil =>
            -- at the boundary the lookahead is the first dangling content
            -- line on the left and the empty string on the right; neither is
            -- a marker, so both sides take the same emit branch
            match suf, hd with
            | c :: m :: rest, hd =>
              have hc : containsSub c (cs "//") = false := by
                have hd2 := hd
                simp only [danglingB, Bool.and_eq_true, Bool.not_eq_true'] at hd2
                exact hd2.1.1.1.1
              have hnextL : containsSub ((c :: m :: rest).head?.getD []) (cs "//") = false := by
                simpa using hc
              have hnextR : containsSub (([] : List (List Char)).head?.getD []) (cs "//")
                  = false := by decide
              have hzero := txtLoop_dangling_nil (c :: m :: rest).length _ le_rfl hd
              cases flag with
              | true =>
                rw [List.cons_append, List.nil_append,
                  txtLoop_emit_group texts _ hp hbt htl hnextL,
                  txtLoop_emit_group texts _ hp hbt htl hnextR,
                  hzero (texts ++ [trimChars tl]) false]
                simp [txtLoop]
              | false =>
                rw [List.cons_append, List.nil_append,
                  txtLoop_emit_single texts _ hp hbt htl hnextL,
                  txtLoop_emit_single texts _ hp hbt htl hnextR,
                  hzero texts false]
                simp [txtLoop]
          | cons q pre'' =>
            have hheads : ((q :: pre'') ++ suf).head?.getD [] = (q :: pre'').head?.getD [] := by
              simp
            by_cases hq : containsSub ((q :: pre'').head?.getD []) (cs "//") = true
            · have hqL : containsSub (((q :: pre'') ++ suf).head?.getD []) (cs "//") = true := by
                rw [hheads]; exact hq
              rw [List.cons_append, txtLoop_accum texts flag _ hp hbt htl hqL,
                txtLoop_accum texts flag _ hp hbt htl hq]
              exact ih (texts ++ [trimChars tl]) true suf hd
            · rw [Bool.not_eq_true] at hq
              have hqL : containsSub (((q :: pre'') ++ suf).head?.getD []) (cs "//")
                  = false := by
                rw [hheads]; exact hq
              cases flag with
              | true =>
                rw [List.cons_append, txtLoop_emit_group texts _ hp hbt htl hqL,
                  txtLoop_emit_group texts _ hp hbt htl hq,
                  ih (texts ++ [trimChars tl]) false suf hd]
              | false =>
                rw [List.cons_append, txtLoop_emit_single texts _ hp hbt htl hqL,
                  txtLoop_emit_single texts _ hp hbt htl hq,
                  ih texts false suf hd]

/-! ## Claims about the plain-text codec and the renderers -/

/-- C10: for every plain-text input whose filtered line list ends with a
dangling continuation group (content lines each followed by a `"//"` marker
line, with no later non-marker line), the parser's result is exactly the
result of parsing the input without that trailing group: the accumulated
lines are silently dropped and produce no balloon. -/
theorem txt_to_doc_dangling_dropped (txt : List Char) (pre suf : List (List Char))
    (hsplit : txtLines txt = pre ++ suf) (hd : danglingB suf = true) :
    txt_to_doc txt = (txtLoop [] false pre).map (fun bs => { balloons := bs }) := by
  unfold txt_to_doc
  rw [hsplit, txtLoop_append_dangling pre [] false suf hd]

/-- Witness for C10 at the concrete input `"OT: a\n//"`: the trailing group
is dropped and the resulting document has no balloons at all. -/
theorem txt_to_doc_dangling_dropped_witness :
    txtLines (cs "OT: a\n//") = [] ++ [cs "OT: a", cs "//"]
    ∧ danglingB [cs "OT: a", cs "//"] = true
    ∧ txt_to_doc (cs "OT: a\n//") = Except.ok { balloons := [] } := by
  refine ⟨by decide, by decide, ?_⟩
  have h := txt_to_doc_dangling_dropped (cs "OT: a\n//") [] [cs "OT: a", cs "//"]
    (by decide) (by decide)
  exact h.trans rfl

/-- C2 counterexample: decoding `"OT: num\n//\nOT: nam\n(): num"` does NOT
yield a first balloon with `translation_lines = ["numnam"]` — the
continuation lines are kept as two separate list entries, not concatenated. -/
theorem txt_to_doc_c2_counterexample :
    (txt_to_doc (cs "OT: num\n//\nOT: nam\n(): num")).toOption.map
        (fun d => d.balloons.map (fun b => (b.btype, b.tl_content)))
      ≠ some [(TYPES.OT, [cs "numnam"]), (TYPES.DIALOGUE, [cs "num"])] := by
  decide

/-- C2 as amended: decoding `"OT: num\n//\nOT: nam\n(): num"` yields exactly
two balloons; the first has kind `OT` and `translation_lines = ["num","nam"]`
(the continuation lines as separate entries, in order), the second has kind
`DIALOGUE` and `translation_lines = ["num"]`. -/
theorem txt_to_doc_c2_amended :
    txt_to_doc (cs "OT: num\n//\nOT: nam\n(): num")
      = Except.ok { balloons :=
          [{ btype := TYPES.OT, tl_content := [cs "num", cs "nam"] },
           { btype := TYPES.DIALOGUE, tl_content := [cs "num"] }] } := by
  rfl

/-- C4 (code bug): the plain-text parser is NOT total — on the input `"a"`
(a non-empty non-marker line shorter than 2 bytes) the slice `&ln[0..2]` in
`decide_b_type_from_txt_line_headers` is out of bounds and the code panics
instead of returning a Document. -/
theorem txt_to_doc_short_line_panics :
    txt_to_doc (cs "a") = Except.error RPanic.panicked
    ∧ txt_to_doc (cs "ab:") = Except.error RPanic.panicked := by
  exact ⟨rfl, rfl⟩

/-- C5 (code bug): the `texts` accumulator is NOT cleared after a balloon is
emitted from a continuation group: on
`"(): a\n//\n(): b\n(): c\n//\n(): d"` the second emitted balloon carries
the first group's lines `["a","b"]` in front of its own `["c","d"]`. -/
theorem txt_to_doc_no_accumulator_clear :
    txt_to_doc (cs "(): a\n//\n(): b\n(): c\n//\n(): d")
      = Except.ok { balloons :=
          [{ btype := TYPES.DIALOGUE, tl_content := [cs "a", cs "b"] },
           { btype := TYPES.DIALOGUE, tl_content := [cs "a", cs "b", cs "c", cs "d"] }] } := by
  rfl

/-- C6: plain-text rendering of a balloon picks exactly one source list —
the proofread lines when non-empty, else the translation lines — rendering
`header ++ line` for each and joining with `"\n//\n"`. -/
theorem balloon_to_string_picks_one_source (b : Balloon) :
    (b.pr_content ≠ [] →
      b.to_string = List.intercalate (cs "\n//\n")
        (b.pr_content.map (fun l => typeHeader b.btype ++ l)))
    ∧ (b.pr_content = [] →
      b.to_string = List.intercalate (cs "\n//\n")
        (b.tl_content.map (fun l => typeHeader b.btype ++ l))) := by
  constructor
  · intro h
    have hlen : 0 < b.pr_content.length := List.length_pos.mpr h
    simp [Balloon.to_string, hlen]
  · intro h
    simp [Balloon.to_string, h]

/-- Witness for C6 at the claim's concrete input: proofread wins and the
default type renders as `"(): a\n//\n(): ZZZZZ"`. -/
theorem balloon_to_string_picks_one_source_witness :
    Balloon.to_string { tl_content := [cs "a"], pr_content := [cs "a", cs "ZZZZZ"] }
      = cs "(): a\n//\n(): ZZZZZ" := by
  have h := (balloon_to_string_picks_one_source
    { tl_content := [cs "a"], pr_content := [cs "a", cs "ZZZZZ"] }).1 (by decide)
  exact h.trans (by decide)

/-- C7: a balloon's XML rendering is the `type` attribute header, then one
`<TL>` per translation line in order, then `<PR>`s, then `<Comment>`s, then
the optional `<img>` whose text is the URL-safe unpadded base64 of the image
bytes, then the closing tag — the order is fixed; instantiated on the
spec's image vector (bytes `[255, 0, 16]` encode as `"_wAQ"`). -/
theorem balloon_to_xml_tag_order :
    (∀ b : Balloon,
      b.to_xml = cs "<Balloon type=\"" ++ battr b.btype ++ cs "\">"
        ++ (b.tl_content.map (fun l => cs "<TL>" ++ l ++ cs "</TL>")).flatten
        ++ (b.pr_content.map (fun l => cs "<PR>" ++ l ++ cs "</PR>")).flatten
        ++ (b.comments.map (fun l => cs "<Comment>" ++ l ++ cs "</Comment>")).flatten
        ++ (match b.balloon_img with
            | none => []
            | some i => cs "<img type=\"" ++ i.img_type ++ cs "\">"
                ++ b64encode i.img_data ++ cs "</img>")
        ++ cs "</Balloon>")
    ∧ Balloon.to_xml
        { tl_content := [cs "a"], pr_content := [cs "a", cs "ZZZZZ"],
          comments := [cs "a"],
          balloon_img := some { img_type := cs "jpg", img_data := [255, 0, 16] } }
      = cs "<Balloon type=\"Dialogue\"><TL>a</TL><PR>a</PR><PR>ZZZZZ</PR><Comment>a</Comment><img type=\"jpg\">_wAQ</img></Balloon>" := by
  exact ⟨fun b => rfl, by decide⟩

/-- The document of the spec's metadata-arithmetic vector: an OverText
balloon with tl `["num","nam"]` and pr `["numnam"]`, and a Dialogue balloon
with tl `["num"]`. -/
def c8doc : Document :=
  { balloons :=
      [{ tl_content := [cs "num", cs "nam"], pr_content := [cs "numnam"],
         btype := TYPES.OT },
       { tl_content := [cs "num"] }] }

set_option maxRecDepth 20000 in
/-- C8: the XML rendering of `c8doc` contains the recomputed metadata values
`TLLength=9, PRLength=6, CMLength=0, BalloonCount=2, LineCount=2` (shown via
its full value and explicit substring checks), and its plain-text rendering
is `"OT: numnam\n\n(): num"`. -/
theorem c8doc_metadata_arithmetic :
    Document.to_xml c8doc
      = cs "<Document><Metadata><Script>Scanlation Script File v0.2.0</Script><App></App><Info>Num</Info><TLLength>9</TLLength><PRLength>6</PRLength><CMLength>0</CMLength><BalloonCount>2</BalloonCount><LineCount>2</LineCount></Metadata><Balloons><Balloon type=\"OT\"><TL>num</TL><TL>nam</TL><PR>numnam</PR></Balloon><Balloon type=\"Dialogue\"><TL>num</TL></Balloon></Balloons></Document>"
    ∧ containsSub (Document.to_xml c8doc) (cs "<TLLength>9</TLLength>") = true
    ∧ containsSub (Document.to_xml c8doc) (cs "<PRLength>6</PRLength>") = true
    ∧ containsSub (Document.to_xml c8doc) (cs "<CMLength>0</CMLength>") = true
    ∧ containsSub (Document.to_xml c8doc) (cs "<BalloonCount>2</BalloonCount>") = true
    ∧ containsSub (Document.to_xml c8doc) (cs "<LineCount>2</LineCount>") = true
    ∧ Document.to_string c8doc = cs "OT: numnam\n\n(): num" := by
  refine ⟨by decide, by decide, by decide, by decide, by decide, by decide, by decide⟩

/-! ## The XML tree model and parser (modelling `roxmltree`) -/

/-- A parsed XML node: an element with attributes and children, or a text
node. -/
inductive XNode where
  | text : List Char → XNode
  | elem : List Char → List (List Char × List Char) → List XNode → XNode

/-- Chars allowed in an element/attribute name (the crate only ever uses
ASCII-letter names). -/
def isNameChar (c : Char) : Bool := c.isAlpha

/-- The XML 1.0 `Char` production: `#x9 | #xA | #xD | [#x20-#xD7FF] |
[#xE000-#xFFFD] | [#x10000-#x10FFFF]`. `roxmltree`/`xmlparser` reject any
other character (`NonXmlChar`); surrogates cannot occur in a `char`. -/
def isXmlChar (c : Char) : Bool :=
  c = '\t' || c = '\n' || c = '\x0d'
    || (0x20 ≤ c.toNat && c.toNat ≤ 0xD7FF)
    || (0xE000 ≤ c.toNat && c.toNat ≤ 0xFFFD)
    || (0x10000 ≤ c.toNat && c.toNat ≤ 0x10FFFF)

/-- Chars scanned as a text run: XML-valid chars other than `<` (markup) and
`&` (an entity reference, which the crate's documents never contain and
which this model rejects like a malformed entity); a non-XML char stops the
scan and makes the parse fail, as in `roxmltree`. -/
def textOk (c : Char) : Bool := isXmlChar c && c ≠ '<' && c ≠ '&'

/-- Chars scanned in an attribute value: additionally not `"`. -/
def attrOk (c : Char) : Bool := isXmlChar c && c ≠ '<' && c ≠ '&' && c ≠ '"'

/-- XML end-of-line normalization, applied by the parser to parsed text:
`\r\n` and lone `\r` become `\n`. -/
def normEol : List Char → List Char
  | [] => []
  | '\x0d' :: '\n' :: rest => '\n' :: normEol rest
  | '\x0d' :: rest => '\n' :: normEol rest
  | c :: rest => c :: normEol rest

/-- XML attribute-value normalization (after end-of-line normalization):
each tab or newline becomes a space. -/
def normAttr : List Char → List Char
  | [] => []
  | c :: rest => (if c = '\t' || c = '\n' then ' ' else c) :: normAttr rest

/-- A text char that the parser returns verbatim: scannable and unaffected
by end-of-line normalization. -/
def textStable (c : Char) : Bool := textOk c && c ≠ '\x0d'

/-- An attribute-value char that the parser returns verbatim: scannable and
unaffected by end-of-line and attribute-value normalization. -/
def attrStable (c : Char) : Bool :=
  attrOk c && c ≠ '\t' && c ≠ '\n' && c ≠ '\x0d'

/-- Unpack `textStable`. -/
theorem textStable_parts {c : Char} (h : textStable c = true) :
    textOk c = true ∧ ¬(c = '\x0d') := by
  simp only [textStable, Bool.and_eq_true, decide_eq_true_eq] at h
  exact h

/-- Unpack `textOk`. -/
theorem textOk_parts {c : Char} (h : textOk c = true) :
    isXmlChar c = true ∧ ¬(c = '<') ∧ ¬(c = '&') := by
  simp only [textOk, Bool.and_eq_true, decide_eq_true_eq] at h
  exact ⟨h.1.1, h.1.2, h.2⟩

/-- Unpack `attrStable`. -/
theorem attrStable_parts {c : Char} (h : attrStable c = true) :
    attrOk c = true ∧ ¬(c = '\t') ∧ ¬(c = '\n') ∧ ¬(c = '\x0d') := by
  simp only [attrStable, Bool.and_eq_true, decide_eq_true_eq] at h
  exact ⟨h.1.1.1, h.1.1.2, h.1.2, h.2⟩

/-- End-of-line normalization is the identity on CR-free strings. -/
theorem normEol_eq_self {s : List Char} (h : ∀ c ∈ s, ¬(c = '\x0d')) :
    normEol s = s := by
  induction s with
  | nil => rfl
  | cons c rest ih =>
    have hc := h c (List.mem_cons_self c rest)
    have ih2 := ih (fun x hx => h x (List.mem_cons_of_mem c hx))
    have step : normEol (c :: rest) = c :: normEol rest := by
      rw [normEol.eq_def]
      split
      · rename_i h1
        exact absurd h1 (by simp)
      · rename_i h1
        injection h1 with h1a h1b
        exact absurd h1a hc
      · rename_i h1
        injection h1 with h1a h1b
        exact absurd h1a hc
      · rename_i h1
        injection h1 with h1a h1b
        rw [h1a, h1b]
    rw [step, ih2]

/-- Attribute-value normalization is the identity on tab/newline-free
strings. -/
theorem normAttr_eq_self {s : List Char}
    (h : ∀ c ∈ s, ¬(c = '\t') ∧ ¬(c = '\n')) : normAttr s = s := by
  induction s with
  | nil => rfl
  | cons c rest ih =>
    have hc := h c (List.mem_cons_self c rest)
    have ih2 := ih (fun x hx => h x (List.mem_cons_of_mem c hx))
    simp only [normAttr, ih2]
    rw [if_neg (by simp [hc.1, hc.2])]

/-- The full attribute-value pipeline is the identity on stable values. -/
theorem normAttrEol_eq_self {s : List Char} (h : s.all attrStable = true) :
    normAttr (normEol s) = s := by
  have hmem := List.all_eq_true.mp h
  rw [normEol_eq_self (fun c hc => (attrStable_parts (hmem c hc)).2.2.2),
    normAttr_eq_self (fun c hc =>
      ⟨(attrStable_parts (hmem c hc)).2.1, (attrStable_parts (hmem c hc)).2.2.1⟩)]

/-- End-of-line normalization is the identity on stable text. -/
theorem normEol_eq_self_of_textStable {s : List Char} (h : s.all textStable = true) :
    normEol s = s :=
  normEol_eq_self (fun c hc => (textStable_parts (List.all_eq_true.mp h c hc)).2)

/-- Stable text chars are scannable. -/
theorem all_textOk_of_textStable {s : List Char} (h : s.all textStable = true) :
    ∀ c ∈ s, textOk c = true :=
  fun c hc => (textStable_parts (List.all_eq_true.mp h c hc)).1

/-- Stable attribute chars are scannable. -/
theorem all_attrOk_of_attrStable {s : List Char} (h : s.all attrStable = true) :
    ∀ c ∈ s, attrOk c = true :=
  fun c hc => (attrStable_parts (List.all_eq_true.mp h c hc)).1

/-- A string without `]` cannot contain the forbidden `]]>`. -/
theorem containsSub_rrb_of_no_rb {s : List Char} (h : ∀ c ∈ s, ¬(c = ']')) :
    containsSub s (cs "]]>") = false := by
  simp only [show cs "]]>" = ']' :: ']' :: '>' :: [] from rfl]
  induction s with
  | nil => rfl
  | cons c rest ih =>
    have hc := h c (List.mem_cons_self c rest)
    have ih2 := ih (fun x hx => h x (List.mem_cons_of_mem c hx))
    simp [containsSub, startsWith, hc, ih2]

/-- Take the longest prefix satisfying `p`, and the rest. -/
def spanP (p : Char → Bool) : List Char → List Char × List Char
  | [] => ([], [])
  | c :: rest =>
    if p c then
      let (a, b) := spanP p rest
      (c :: a, b)
    else ([], c :: rest)

mutual

/-- Parse the attribute list after an element name, up to and including the
closing `>`. Fuel-indexed for structural recursion. -/
def pAttrs : Nat → List Char → Option (List (List Char × List Char) × List Char)
  | 0, _ => none
  | f + 1, l =>
    match l with
    | '>' :: rest => some ([], rest)
    | ' ' :: rest =>
      let (nm, r1) := spanP isNameChar rest
      if nm.isEmpty then none
      else
        match r1 with
        | '=' :: '"' :: r2 =>
          let (v, r3) := spanP attrOk r2
          match r3 with
          | '"' :: r4 =>
            match pAttrs f r4 with
            | some (as, r5) => some ((nm, normAttr (normEol v)) :: as, r5)
            | none => none
          | _ => none
        | _ => none
    | _ => none

/-- Parse one element (`<name attrs>children</name>`). -/
def pNode : Nat → List Char → Option (XNode × List Char)
  | 0, _ => none
  | f + 1, l =>
    match l with
    | '<' :: rest =>
      let (nm, r1) := spanP isNameChar rest
      if nm.isEmpty then none
      else
        match pAttrs f r1 with
        | some (as, r2) =>
          match pChildren f nm r2 with
          | some (kids, r3) => some (XNode.elem nm as kids, r3)
          | none => none
        | none => none
    | _ => none

/-- Parse a sequence of child nodes of element `nm`, up to and including the
closing tag `</nm>`. -/
def pChildren : Nat → List Char → List Char → Option (List XNode × List Char)
  | 0, _, _ => none
  | f + 1, nm, l =>
    match l with
    | '<' :: '/' :: rest =>
      let (nm2, r1) := spanP isNameChar rest
      if nm2 = nm then
        match r1 with
        | '>' :: r2 => some ([], r2)
        | _ => none
      else none
    | '<' :: rest =>
      match pNode f ('<' :: rest) with
      | some (n, r1) =>
        match pChildren f nm r1 with
        | some (kids, r2) => some (n :: kids, r2)
        | none => none
      | none => none
    | [] => none
    | l =>
      let (t, r1) := spanP textOk l
      if t.isEmpty then none
      else if containsSub t (cs "]]>") then none
      else
        match pChildren f nm r1 with
        | some (kids, r2) => some (XNode.text (normEol t) :: kids, r2)
        | none => none

end

/-- `roxmltree::Document::parse`: parse a whole XML string into its root
element; `none` models a `roxmltree` parse error. The fuel `2 * length + 4`
is an upper bound on the recursion depth (every two nested calls consume at
least one input char). -/
def parseXml (l : List Char) : Option XNode :=
  match pNode (2 * l.length + 4) l with
  | some (n, []) => some n
  | _ => none

/-- Children of a node (`Node::children`; a text node has none). -/
def childrenOf : XNode → List XNode
  | XNode.text _ => []
  | XNode.elem _ _ kids => kids

/-- `Node::attribute(name)` (a text node has no attributes). -/
def attrOf (nm : List Char) : XNode → Option (List Char)
  | XNode.text _ => none
  | XNode.elem _ as _ => (as.find? (fun a => a.1 == nm)).map (fun a => a.2)

/-- The node is an element with tag name `nm` (`tag_name().name() == nm`;
a text node's tag name is empty). -/
def isElemNamed (nm : List Char) : XNode → Bool
  | XNode.text _ => false
  | XNode.elem n _ _ => n == nm

/-- `Node::text()`: for an element, the text of its first child when that
child is a text node. -/
def nodeText : XNode → Option (List Char)
  | XNode.text s => some s
  | XNode.elem _ _ kids =>
    match kids with
    | XNode.text s :: _ => some s
    | _ => none

mutual

/-- `tree.descendants().find(|n| n.tag_name().name() == nm)`: first element
named `nm` in document (pre-)order. -/
def findElem (nm : List Char) : XNode → Option XNode
  | XNode.text _ => none
  | XNode.elem n as kids =>
    if n = nm then some (XNode.elem n as kids) else findElemL nm kids

/-- `findElem` over a node list, in order. -/
def findElemL (nm : List Char) : List XNode → Option XNode
  | [] => none
  | n :: rest =>
    match findElem nm n with
    | some r => some r
    | none => findElemL nm rest

end

/-- `node.children().find(|c| c.tag_name().name() == nm)`. -/
def findChild (nm : List Char) (kids : List XNode) : Option XNode :=
  kids.find? (isElemNamed nm)

/-- The `match c.attribute("type")` table of `Document::xml_to_doc`:
unknown attribute values fall back to `DIALOGUE`. -/
def btypeOfAttr (s : List Char) : TYPES :=
  if s = cs "Dialogue" then TYPES.DIALOGUE
  else if s = cs "Square" then TYPES.SQUARE
  else if s = cs "ST" then TYPES.ST
  else if s = cs "OT" then TYPES.OT
  else if s = cs "Thinking" then TYPES.THINKING
  else TYPES.DIALOGUE

/-- Failure modes of `Document::xml_to_doc`: the typed errors actually
returned in the `Result` (`malformed` from `roxmltree`, `badBase64` from the
`?` on `B64.decode`), and `panicked` for the `.unwrap()` calls that abort
instead of returning an error. -/
inductive DErr where
  | malformed
  | badBase64
  | panicked
deriving DecidableEq

/-- One iteration of the balloon loop of `Document::xml_to_doc`: rebuild a
`Balloon` from one child of the `Balloons` node. -/
def balloonOfNode (c : XNode) : Except DErr Balloon :=
  match attrOf (cs "type") c with
  | none => Except.error DErr.panicked
  | some tv =>
    let tls := ((childrenOf c).filter (isElemNamed (cs "TL"))).map
      (fun n => (nodeText n).getD [])
    let prs := ((childrenOf c).filter (isElemNamed (cs "PR"))).map
      (fun n => (nodeText n).getD [])
    let cms := ((childrenOf c).filter (isElemNamed (cs "Comment"))).map
      (fun n => (nodeText n).getD [])
    match (childrenOf c).find? (isElemNamed (cs "img")) with
    | none =>
      Except.ok
        { btype := btypeOfAttr tv, tl_content := tls, pr_content := prs,
          comments := cms, balloon_img := none }
    | some i =>
      match attrOf (cs "type") i with
      | none => Except.error DErr.panicked
      | some it =>
        match nodeText i with
        | none => Except.error DErr.panicked
        | some enc =>
          match b64decode enc with
          | none => Except.error DErr.badBase64
          | some data =>
            Except.ok
              { btype := btypeOfAttr tv, tl_content := tls,
                pr_content := prs, comments := cms,
                balloon_img := some { img_type := it, img_data := data } }

/-- The balloon loop of `Document::xml_to_doc`, over all children of the
`Balloons` node in order. -/
def balloonsOfNodes : List XNode → Except DErr (List Balloon)
  | [] => Except.ok []
  | c :: rest => do
    let b ← balloonOfNode c
    let bs ← balloonsOfNodes rest
    pure (b :: bs)

/-- `Document::xml_to_doc`: parse the XML string, find `Metadata` (unwrap:
panic when absent), read `Script`/`App`/`Info` (unwrap on the node, then
`unwrap_or("")` on the text), find `Balloons` (unwrap), rebuild the
balloons. -/
def xml_to_doc (xml : List Char) : Except DErr Document :=
  match parseXml xml with
  | none => Except.error DErr.malformed
  | some root =>
    match findElem (cs "Metadata") root with
    | none => Except.error DErr.panicked
    | some md =>
      match findChild (cs "Script") (childrenOf md),
          findChild (cs "App") (childrenOf md),
          findChild (cs "Info") (childrenOf md) with
      | some nScript, some nApp, some nInfo =>
        match findElem (cs "Balloons") root with
        | none => Except.error DErr.panicked
        | some bs =>
          (balloonsOfNodes (childrenOf bs)).map (fun balloons =>
            { METADATA_SCRIPT_VERSION := (nodeText nScript).getD [],
              METADATA_APP_VERSION := (nodeText nApp).getD [],
              METADATA_INFO := (nodeText nInfo).getD [],
              balloons := balloons })
      | _, _, _ => Except.error DErr.panicked

set_option maxRecDepth 40000 in
/-- C3 (code bug): on well-formed XML lacking a `Metadata` node — or having
`Metadata` but lacking a `Balloons` node — `xml_to_doc` does NOT return a
typed `MissingSection` error (no such error value exists in the code): the
`.unwrap()` calls on the failed `find` panic, aborting instead of returning
to the caller. -/
theorem xml_to_doc_missing_section_panics :
    xml_to_doc (cs "<Document></Document>") = Except.error DErr.panicked
    ∧ xml_to_doc
        (cs "<Document><Metadata><Script>s</Script><App>a</App><Info>i</Info></Metadata></Document>")
      = Except.error DErr.panicked := by
  exact ⟨rfl, rfl⟩

set_option maxRecDepth 40000 in
/-- C9: an unknown `type` attribute value on a Balloon node (one outside
Dialogue/Square/ST/OT/Thinking) maps to `DIALOGUE`, and decoding a document
whose balloon carries `type="Bogus"` succeeds with a `DIALOGUE` balloon. -/
theorem xml_unknown_type_decodes_dialogue (s : List Char)
    (h : s ∉ [cs "Dialogue", cs "Square", cs "ST", cs "OT", cs "Thinking"]) :
    btypeOfAttr s = TYPES.DIALOGUE
    ∧ xml_to_doc
        (cs "<Document><Metadata><Script>s</Script><App>a</App><Info>i</Info></Metadata><Balloons><Balloon type=\"Bogus\"><TL>x</TL></Balloon></Balloons></Document>")
      = Except.ok
          { METADATA_SCRIPT_VERSION := cs "s", METADATA_APP_VERSION := cs "a",
            METADATA_INFO := cs "i",
            balloons := [{ btype := TYPES.DIALOGUE, tl_content := [cs "x"] }] } := by
  constructor
  · simp only [List.mem_cons, List.mem_singleton, not_or] at h
    obtain ⟨h1, h2, h3, h4, h5, -⟩ := h
    simp [btypeOfAttr, h1, h2, h3, h4, h5]
  · rfl

/-- Witness for C9 at the concrete attribute value `"Bogus"`. -/
theorem xml_unknown_type_decodes_dialogue_witness :
    btypeOfAttr (cs "Bogus") = TYPES.DIALOGUE := by
  exact (xml_unknown_type_decodes_dialogue (cs "Bogus") (by decide)).1

/-- A document whose only balloon has the translation line `"<"`. -/
def c1docLt : Document := { balloons := [{ tl_content := [cs "<"] }] }

/-- A document whose only balloon has an attached image with empty byte
content. -/
def c1docImg : Document :=
  { balloons := [{ balloon_img := some { img_type := cs "jpg", img_data := [] } }] }

set_option maxRecDepth 40000 in
/-- C1 counterexample: XML decoding of a rendered Document does NOT succeed
for every Document. A translation line `"<"` is embedded unescaped, so the
rendered XML is malformed and decoding returns an error; an attached image
with empty byte content renders as `<img type="jpg"></img>`, whose missing
text makes `img.text().unwrap()` panic during decoding. -/
theorem xml_roundtrip_counterexample :
    xml_to_doc (Document.to_xml c1docLt) = Except.error DErr.malformed
    ∧ xml_to_doc (Document.to_xml c1docImg) = Except.error DErr.panicked := by
  exact ⟨rfl, rfl⟩

/-! ## Round-trip machinery: canonical rendering of an `XNode` tree -/

/-- Canonical rendering of an attribute list (as `Document::to_xml` and
`Balloon::to_xml` emit it): ` name="value"` for each attribute. -/
def renderAttrs : List (List Char × List Char) → List Char
  | [] => []
  | (n, v) :: rest => ' ' :: (n ++ '=' :: '"' :: (v ++ '"' :: renderAttrs rest))

mutual

/-- Canonical rendering of a node: `<name attrs>children</name>` for an
element, the raw text for a text node. -/
def renderNode : XNode → List Char
  | XNode.text s => s
  | XNode.elem nm as kids =>
    '<' :: (nm ++ renderAttrs as ++ '>' :: (renderList kids ++ '<' :: '/' :: (nm ++ ['>'])))

/-- Concatenated rendering of a node list. -/
def renderList : List XNode → List Char
  | [] => []
  | n :: rest => renderNode n ++ renderList rest

end

/-- Is the node a text node? -/
def isTextNode : XNode → Bool
  | XNode.text _ => true
  | XNode.elem _ _ _ => false

mutual

/-- A fuel bound for parsing a rendered node. -/
def weight : XNode → Nat
  | XNode.text _ => 1
  | XNode.elem _ as kids => 2 + as.length + weightL kids

/-- A fuel bound for parsing a rendered node list. -/
def weightL : List XNode → Nat
  | [] => 0
  | n :: rest => weight n + weightL rest

end

/-- Well-formed attribute entry: nonempty alphabetic name, and a value the
parser returns verbatim (scannable, normalization-free). -/
def attrEntryOk (a : List Char × List Char) : Bool :=
  !a.1.isEmpty && a.1.all isNameChar && a.2.all attrStable

mutual

/-- A node whose canonical rendering parses back to itself: names are
nonempty and alphabetic, text runs are nonempty, scannable, untouched by
end-of-line normalization and free of the forbidden `]]>` sequence,
attribute values survive normalization, and children are well formed with
no two adjacent text nodes. -/
def nodeOk : XNode → Bool
  | XNode.text s => !s.isEmpty && s.all textStable && !containsSub s (cs "]]>")
  | XNode.elem nm as kids =>
    !nm.isEmpty && nm.all isNameChar && as.all attrEntryOk && nodesOk kids

/-- `nodeOk` on every node of a list, plus no two adjacent text nodes. -/
def nodesOk : List XNode → Bool
  | [] => true
  | [n] => nodeOk n
  | n :: m :: rest => nodeOk n && !(isTextNode n && isTextNode m) && nodesOk (m :: rest)

end

/-- `spanP` splits exactly at a prepared boundary: if every char of `a`
satisfies `p` and the head of `b` (if any) does not, the span of `a ++ b`
is `(a, b)`. -/
theorem spanP_append_exact (p : Char → Bool) :
    ∀ (a b : List Char), (∀ c ∈ a, p c = true) →
      (∀ c, b.head? = some c → p c = false) →
      spanP p (a ++ b) = (a, b) := by
  intro a
  induction a with
  | nil =>
    intro b _ hb
    cases b with
    | nil => rfl
    | cons c rest =>
      have hc := hb c rfl
      simp [spanP, hc]
  | cons x a' ih =>
    intro b ha hb
    have hx : p x = true := ha x (List.mem_cons_self x a')
    have ha' : ∀ c ∈ a', p c = true := fun c hc => ha c (List.mem_cons_of_mem x hc)
    simp [spanP, hx, ih b ha' hb]

/-- Helper: a boolean `all` over chars gives membership facts. -/
theorem all_char_mem {p : Char → Bool} {l : List Char} (h : l.all p = true) :
    ∀ c ∈ l, p c = true := List.all_eq_true.mp h

/-- Helper: a cons head fails a predicate. -/
theorem head_fails {p : Char → Bool} {c0 : Char} (h : p c0 = false) (t : List Char) :
    ∀ c, (c0 :: t).head? = some c → p c = false := by
  intro c hc
  simp only [List.head?_cons, Option.some.injEq] at hc
  exact hc ▸ h

/-- Parsing the canonical rendering of a clean attribute list consumes it and
the closing `>` exactly. -/
theorem pAttrs_render :
    ∀ (as : List (List Char × List Char)) (f : Nat) (rest : List Char),
      as.length < f → as.all attrEntryOk = true →
      pAttrs f (renderAttrs as ++ '>' :: rest) = some (as, rest) := by
  intro as
  induction as with
  | nil =>
    intro f rest hf _
    obtain ⟨f', rfl⟩ : ∃ f', f = f' + 1 := ⟨f - 1, by omega⟩
    simp [renderAttrs, pAttrs]
  | cons a as' ih =>
    intro f rest hf hok
    obtain ⟨n, v⟩ := a
    obtain ⟨f', rfl⟩ : ∃ f', f = f' + 1 := ⟨f - 1, by omega⟩
    simp only [List.all_cons, Bool.and_eq_true] at hok
    obtain ⟨hentry, hok'⟩ := hok
    simp only [attrEntryOk, Bool.and_eq_true, Bool.not_eq_true'] at hentry
    obtain ⟨⟨hne, hnm⟩, hv⟩ := hentry
    have heq : renderAttrs ((n, v) :: as') ++ '>' :: rest
        = ' ' :: (n ++ ('=' :: '"' :: (v ++ '"' :: (renderAttrs as' ++ '>' :: rest)))) := by
      simp [renderAttrs]
    rw [heq]
    simp only [pAttrs]
    rw [spanP_append_exact isNameChar n ('=' :: '"' :: (v ++ '"' :: (renderAttrs as' ++ '>' :: rest)))
      (all_char_mem hnm) (head_fails (by decide) _)]
    simp only [hne]
    rw [show v ++ '"' :: (renderAttrs as' ++ '>' :: rest)
        = v ++ ('"' :: (renderAttrs as' ++ '>' :: rest)) from rfl,
      spanP_append_exact attrOk v ('"' :: (renderAttrs as' ++ '>' :: rest))
        (all_attrOk_of_attrStable hv) (head_fails (by decide) _)]
    simp only [Bool.false_eq_true, if_false]
    rw [ih f' rest (by simp at hf; omega) hok', normAttrEol_eq_self hv]

/-- `pChildren` at a closing tag `</nm>` returns the empty child list. -/
theorem pChildren_closing (f : Nat) (nm rest : List Char)
    (hnm : nm.all isNameChar = true) :
    pChildren (f + 1) nm ('<' :: '/' :: (nm ++ '>' :: rest)) = some ([], rest) := by
  simp only [pChildren]
  rw [spanP_append_exact isNameChar nm ('>' :: rest) (all_char_mem hnm)
    (head_fails (by decide) _)]
  simp

/-- `pChildren` at a non-closing tag start parses a child element and
continues. -/
theorem pChildren_elem_step (f : Nat) (nm : List Char) (c0 : Char) (tail : List Char)
    (hc0 : c0 ≠ '/') :
    pChildren (f + 1) nm ('<' :: c0 :: tail)
      = match pNode f ('<' :: c0 :: tail) with
        | some (n, r1) =>
          match pChildren f nm r1 with
          | some (kids, r2) => some (n :: kids, r2)
          | none => none
        | none => none := by
  simp only [pChildren]
  split
  · rename_i h
    injection h with h1 h2
    injection h2 with h2 h3
    exact absurd h2 hc0
  · rename_i h
    injection h with h1 h2
    subst h2
    rfl
  · rename_i h
    injection h
  · rename_i h1 h2 h3
    exact ((h2 (c0 :: tail)) rfl).elim

/-- `pChildren` at a non-`<` char parses a text run and continues. -/
theorem pChildren_text_step (f : Nat) (nm : List Char) (c0 : Char) (tail : List Char)
    (hc0 : c0 ≠ '<') :
    pChildren (f + 1) nm (c0 :: tail)
      = (match spanP textOk (c0 :: tail) with
         | (t, r1) =>
           if t.isEmpty then none
           else if containsSub t (cs "]]>") then none
           else
             match pChildren f nm r1 with
             | some (kids, r2) => some (XNode.text (normEol t) :: kids, r2)
             | none => none) := by
  simp only [pChildren]
  split
  · rename_i h
    injection h with h1 h2
    exact absurd h1 hc0
  · rename_i h
    injection h with h1 h2
    exact absurd h1 hc0
  · rename_i h
    injection h
  · rfl

/-- `nodesOk` gives `nodeOk` of the head. -/
theorem nodesOk_head {n : XNode} {rest : List XNode} (h : nodesOk (n :: rest) = true) :
    nodeOk n = true := by
  cases rest with
  | nil => simpa [nodesOk] using h
  | cons m r =>
    simp only [nodesOk, Bool.and_eq_true] at h
    exact h.1.1

/-- `nodesOk` gives `nodesOk` of the tail. -/
theorem nodesOk_tail {n : XNode} {rest : List XNode} (h : nodesOk (n :: rest) = true) :
    nodesOk rest = true := by
  cases rest with
  | nil => rfl
  | cons m r =>
    simp only [nodesOk, Bool.and_eq_true] at h
    exact h.2

/-- `nodesOk` forbids two adjacent text nodes. -/
theorem nodesOk_adj {n m : XNode} {rest : List XNode}
    (h : nodesOk (n :: m :: rest) = true) :
    (isTextNode n && isTextNode m) = false := by
  simp only [nodesOk, Bool.and_eq_true, Bool.not_eq_true'] at h
  exact h.1.2

/-- Unpack `nodeOk` on an element. -/
theorem nodeOk_elem_parts {nm : List Char} {as : List (List Char × List Char)}
    {kids : List XNode} (h : nodeOk (XNode.elem nm as kids) = true) :
    nm.isEmpty = false ∧ nm.all isNameChar = true ∧ as.all attrEntryOk = true
      ∧ nodesOk kids = true := by
  simp only [nodeOk, Bool.and_eq_true, Bool.not_eq_true'] at h
  exact ⟨h.1.1.1, h.1.1.2, h.1.2, h.2⟩

/-- Unpack `nodeOk` on a text node. -/
theorem nodeOk_text_parts {s : List Char} (h : nodeOk (XNode.text s) = true) :
    s.isEmpty = false ∧ s.all textStable = true
      ∧ containsSub s (cs "]]>") = false := by
  simp only [nodeOk, Bool.and_eq_true, Bool.not_eq_true'] at h
  exact ⟨h.1.1, h.1.2, h.2⟩

/-- Every node weighs at least 1. -/
theorem weight_pos (n : XNode) : 1 ≤ weight n := by
  cases n with
  | text s => simp [weight]
  | elem nm as kids => simp [weight]; omega

/-- The char right after a rendered attribute list fails `isNameChar`. -/
theorem renderAttrs_head_fails (as : List (List Char × List Char)) (Z : List Char) :
    ∀ c, (renderAttrs as ++ '>' :: Z).head? = some c → isNameChar c = false := by
  cases as with
  | nil => exact head_fails (by decide) Z
  | cons a t =>
    obtain ⟨n0, v0⟩ := a
    exact head_fails (by decide) _

/-- Main parse-of-render theorem, by strong induction on a weight bound `W`:
parsing the canonical rendering of a clean element (resp. clean child list
followed by its closing tag) with enough fuel returns exactly that element
(resp. list) and the leftover input. -/
theorem parse_render_main :
    ∀ W : Nat,
      (∀ (nm : List Char) (as : List (List Char × List Char)) (kids : List XNode),
        nodeOk (XNode.elem nm as kids) = true → weight (XNode.elem nm as kids) ≤ W →
        ∀ (f : Nat) (rest : List Char), weight (XNode.elem nm as kids) ≤ f →
          pNode f (renderNode (XNode.elem nm as kids) ++ rest)
            = some (XNode.elem nm as kids, rest))
      ∧ (∀ (ks : List XNode) (nm : List Char), nodesOk ks = true →
          weightL ks + 1 ≤ W → nm.all isNameChar = true →
          ∀ (f : Nat) (rest : List Char), weightL ks < f →
            pChildren f nm (renderList ks ++ '<' :: '/' :: (nm ++ '>' :: rest))
              = some (ks, rest)) := by
  intro W
  induction W using Nat.strong_induction_on with
  | _ W IH =>
    constructor
    · intro nm as kids hok hw f rest hf
      obtain ⟨hne, hnm, has, hkids⟩ := nodeOk_elem_parts hok
      have hwv : weight (XNode.elem nm as kids) = 2 + as.length + weightL kids := by
        simp [weight]
      rw [hwv] at hw hf
      obtain ⟨f', rfl⟩ : ∃ f', f = f' + 1 := ⟨f - 1, by omega⟩
      have heq : renderNode (XNode.elem nm as kids) ++ rest
          = '<' :: (nm ++ (renderAttrs as
              ++ '>' :: (renderList kids ++ '<' :: '/' :: (nm ++ '>' :: rest)))) := by
        simp [renderNode, List.append_assoc]
      rw [heq]
      simp only [pNode]
      rw [spanP_append_exact isNameChar nm
        (renderAttrs as ++ '>' :: (renderList kids ++ '<' :: '/' :: (nm ++ '>' :: rest)))
        (all_char_mem hnm) (renderAttrs_head_fails as _)]
      simp only [hne, Bool.false_eq_true, if_false]
      rw [pAttrs_render as f' _ (by omega) has]
      have hch := (IH (weightL kids + 1) (by omega)).2 kids nm hkids le_rfl hnm f' rest
        (by omega)
      simp only [hch]
    · intro ks nm hok hW hnm f rest hf
      cases ks with
      | nil =>
        obtain ⟨f', rfl⟩ : ∃ f', f = f' + 1 := ⟨f - 1, by omega⟩
        simpa using pChildren_closing f' nm rest hnm
      | cons n ks' =>
        have hokn := nodesOk_head hok
        have hoks' := nodesOk_tail hok
        have hwn := weight_pos n
        have hwL : weightL (n :: ks') = weight n + weightL ks' := by simp [weightL]
        rw [hwL] at hW hf
        obtain ⟨f', rfl⟩ : ∃ f', f = f' + 1 := ⟨f - 1, by omega⟩
        cases n with
        | text s =>
          obtain ⟨hsne, hst, hsub⟩ := nodeOk_text_parts hokn
          cases s with
          | nil => simp at hsne
          | cons c0 s' =>
            have hc0 : textOk c0 = true :=
              all_textOk_of_textStable hst c0 (List.mem_cons_self c0 s')
            have hc0ne : c0 ≠ '<' := (textOk_parts hc0).2.1
            have heq : renderList (XNode.text (c0 :: s') :: ks')
                  ++ '<' :: '/' :: (nm ++ '>' :: rest)
                = c0 :: (s' ++ (renderList ks' ++ '<' :: '/' :: (nm ++ '>' :: rest))) := by
              simp [renderList, renderNode, List.append_assoc]
            rw [heq, pChildren_text_step f' nm c0 _ hc0ne]
            have hspan : spanP textOk
                (c0 :: (s' ++ (renderList ks' ++ '<' :: '/' :: (nm ++ '>' :: rest))))
                = (c0 :: s', renderList ks' ++ '<' :: '/' :: (nm ++ '>' :: rest)) := by
              rw [show c0 :: (s' ++ (renderList ks' ++ '<' :: '/' :: (nm ++ '>' :: rest)))
                  = (c0 :: s') ++ (renderList ks' ++ '<' :: '/' :: (nm ++ '>' :: rest))
                from rfl]
              refine spanP_append_exact textOk (c0 :: s') _
                (all_textOk_of_textStable hst) ?_
              cases ks' with
              | nil => exact head_fails (by decide) _
              | cons m t =>
                have hadj := nodesOk_adj hok
                cases m with
                | text s2 => simp [isTextNode] at hadj
                | elem nm2 as2 kids2 =>
                  rw [show renderList (XNode.elem nm2 as2 kids2 :: t)
                      ++ '<' :: '/' :: (nm ++ '>' :: rest)
                      = '<' :: ((nm2 ++ renderAttrs as2
                          ++ '>' :: (renderList kids2 ++ '<' :: '/' :: (nm2 ++ ['>'])))
                        ++ (renderList t ++ '<' :: '/' :: (nm ++ '>' :: rest)))
                    from by simp [renderList, renderNode, List.append_assoc]]
                  exact head_fails (by decide) _
            rw [hspan]
            simp only [List.isEmpty_cons, Bool.false_eq_true, if_false, hsub]
            have hch := (IH (weightL ks' + 1) (by simp [weight] at hW; omega)).2 ks' nm
              hoks' le_rfl hnm f' rest (by simp [weight] at hf; omega)
            simp only [hch, normEol_eq_self_of_textStable hst]
        | elem nm1 as1 kids1 =>
          obtain ⟨hne1, hnm1, _, _⟩ := nodeOk_elem_parts hokn
          cases nm1 with
          | nil => simp at hne1
          | cons c0 nm1' =>
            have hc0 : isNameChar c0 = true :=
              all_char_mem hnm1 c0 (List.mem_cons_self c0 nm1')
            have hc0ne : c0 ≠ '/' := by
              intro hcontra
              rw [hcontra] at hc0
              simp [isNameChar] at hc0
            have heq : renderList (XNode.elem (c0 :: nm1') as1 kids1 :: ks')
                  ++ '<' :: '/' :: (nm ++ '>' :: rest)
                = renderNode (XNode.elem (c0 :: nm1') as1 kids1)
                  ++ (renderList ks' ++ '<' :: '/' :: (nm ++ '>' :: rest)) := by
              simp [renderList, List.append_assoc]
            have heq2 : renderNode (XNode.elem (c0 :: nm1') as1 kids1)
                  ++ (renderList ks' ++ '<' :: '/' :: (nm ++ '>' :: rest))
                = '<' :: c0 :: ((nm1' ++ renderAttrs as1
                    ++ '>' :: (renderList kids1 ++ '<' :: '/' :: ((c0 :: nm1') ++ ['>'])))
                  ++ (renderList ks' ++ '<' :: '/' :: (nm ++ '>' :: rest))) := by
              simp [renderNode, List.append_assoc]
            rw [heq, heq2, pChildren_elem_step f' nm c0 _ hc0ne, ← heq2]
            have hnode := (IH (weight (XNode.elem (c0 :: nm1') as1 kids1))
                (by omega)).1 (c0 :: nm1') as1 kids1 hokn le_rfl f'
                (renderList ks' ++ '<' :: '/' :: (nm ++ '>' :: rest)) (by omega)
            rw [hnode]
            have hch := (IH (weightL ks' + 1) (by omega)).2 ks' nm hoks' le_rfl hnm f'
              rest (by omega)
            simp only [hch]

/-- Each attribute contributes at least one char to the rendering. -/
theorem renderAttrs_len (as : List (List Char × List Char)) :
    as.length ≤ (renderAttrs as).length := by
  induction as with
  | nil => simp [renderAttrs]
  | cons a t ih =>
    obtain ⟨n, v⟩ := a
    simp only [renderAttrs, List.length_cons, List.length_append]
    omega

/-- The weight of a clean node is bounded by the length of its rendering. -/
theorem weight_le_render :
    ∀ W : Nat,
      (∀ (nm : List Char) (as : List (List Char × List Char)) (kids : List XNode),
        nodeOk (XNode.elem nm as kids) = true → weight (XNode.elem nm as kids) ≤ W →
          weight (XNode.elem nm as kids) ≤ (renderNode (XNode.elem nm as kids)).length)
      ∧ (∀ ks : List XNode, nodesOk ks = true → weightL ks + 1 ≤ W →
          weightL ks ≤ (renderList ks).length) := by
  intro W
  induction W using Nat.strong_induction_on with
  | _ W IH =>
    constructor
    · intro nm as kids hok hw
      obtain ⟨-, -, -, hkids⟩ := nodeOk_elem_parts hok
      have hwv : weight (XNode.elem nm as kids) = 2 + as.length + weightL kids := by
        simp [weight]
      have hkl : weightL kids ≤ (renderList kids).length := by
        refine (IH (weightL kids + 1) ?_).2 kids hkids le_rfl
        omega
      have hal := renderAttrs_len as
      simp only [hwv, renderNode, List.length_cons, List.length_append]
      omega
    · intro ks hok hW
      cases ks with
      | nil => simp [weightL, renderList]
      | cons n ks' =>
        have hokn := nodesOk_head hok
        have hoks' := nodesOk_tail hok
        have hwn := weight_pos n
        have htl : weightL ks' ≤ (renderList ks').length := by
          refine (IH (weightL ks' + 1) ?_).2 ks' hoks' le_rfl
          simp [weightL] at hW
          omega
        have hhd : weight n ≤ (renderNode n).length := by
          cases n with
          | text s =>
            obtain ⟨hsne, -⟩ := nodeOk_text_parts hokn
            cases s with
            | nil => simp at hsne
            | cons c t => simp [weight, renderNode]
          | elem nm1 as1 kids1 =>
            refine (IH (weight (XNode.elem nm1 as1 kids1)) ?_).1 nm1 as1 kids1 hokn le_rfl
            simp [weightL] at hW
            omega
        simp only [weightL, renderList, List.length_append]
        omega

/-- Parsing the full canonical rendering of a clean element yields exactly
that element. -/
theorem parseXml_render (nm : List Char) (as : List (List Char × List Char))
    (kids : List XNode) (hok : nodeOk (XNode.elem nm as kids) = true) :
    parseXml (renderNode (XNode.elem nm as kids)) = some (XNode.elem nm as kids) := by
  unfold parseXml
  have hwr := (weight_le_render (weight (XNode.elem nm as kids))).1 nm as kids hok le_rfl
  have h := (parse_render_main (weight (XNode.elem nm as kids))).1 nm as kids hok le_rfl
    (2 * (renderNode (XNode.elem nm as kids)).length + 4) [] (by omega)
  rw [List.append_nil] at h
  rw [h]

/-! ## The canonical tree of a rendered Document -/

/-- The text children of an element holding string `s`: none when `s` is
empty (an empty element has no text node), else a single text node. -/
def textC (s : List Char) : List XNode := if s.isEmpty then [] else [XNode.text s]

/-- An attribute-free element with tag `nm` holding the text `s`. -/
def tElem (nm : String) (s : List Char) : XNode := XNode.elem (cs nm) [] (textC s)

/-- The XML tree of one rendered balloon. -/
def balloonTree (b : Balloon) : XNode :=
  XNode.elem (cs "Balloon") [(cs "type", battr b.btype)]
    (b.tl_content.map (tElem "TL") ++ b.pr_content.map (tElem "PR")
      ++ b.comments.map (tElem "Comment")
      ++ (match b.balloon_img with
          | none => []
          | some i => [XNode.elem (cs "img") [(cs "type", i.img_type)]
              (textC (b64encode i.img_data))]))

/-- The XML tree of a rendered Document. -/
def docTree (d : Document) : XNode :=
  XNode.elem (cs "Document") []
    [XNode.elem (cs "Metadata") []
        [tElem "Script" d.METADATA_SCRIPT_VERSION,
         tElem "App" d.METADATA_APP_VERSION,
         tElem "Info" d.METADATA_INFO,
         tElem "TLLength" (natToChars d.tl_chars),
         tElem "PRLength" (natToChars d.pr_chars),
         tElem "CMLength" (natToChars d.comment_chars),
         tElem "BalloonCount" (natToChars d.balloons.length),
         tElem "LineCount" (natToChars d.line_count)],
     XNode.elem (cs "Balloons") [] (d.balloons.map balloonTree)]

theorem renderList_append (a b : List XNode) :
    renderList (a ++ b) = renderList a ++ renderList b := by
  induction a with
  | nil => simp [renderList]
  | cons n t ih => simp [renderList, ih]

theorem renderNode_tElem (nm : String) (s : List Char) :
    renderNode (tElem nm s)
      = '<' :: (cs nm ++ ('>' :: (s ++ ('<' :: '/' :: (cs nm ++ ['>']))))) := by
  by_cases h : s.isEmpty
  · have hs : s = [] := by simpa [List.isEmpty_iff] using h
    subst hs
    simp [tElem, textC, renderNode, renderList, renderAttrs]
  · simp only [Bool.not_eq_true] at h
    simp [tElem, textC, h, renderNode, renderList, renderAttrs]

theorem renderList_map_tElem (nm : String) (ls : List (List Char)) :
    renderList (ls.map (tElem nm))
      = (ls.map (fun s =>
          '<' :: (cs nm ++ ('>' :: (s ++ ('<' :: '/' :: (cs nm ++ ['>']))))))).flatten := by
  induction ls with
  | nil => rfl
  | cons s t ih => simp [renderList, renderNode_tElem, ih]

theorem balloon_to_xml_eq_render (b : Balloon) :
    Balloon.to_xml b = renderNode (balloonTree b) := by
  unfold Balloon.to_xml balloonTree
  cases himg : b.balloon_img with
  | none =>
    simp only [renderNode, renderList_append, renderList_map_tElem, renderAttrs,
      renderList, List.append_assoc, List.append_nil, List.cons_append, List.nil_append]
    rfl
  | some i =>
    by_cases henc : (b64encode i.img_data).isEmpty
    · have henc' : b64encode i.img_data = [] := by
        simpa [List.isEmpty_iff] using henc
      simp only [henc', renderNode, renderList_append, renderList_map_tElem, renderAttrs,
        renderList, textC, List.isEmpty_nil, if_true, List.append_assoc, List.append_nil,
        List.cons_append, List.nil_append]
      rfl
    · simp only [Bool.not_eq_true] at henc
      simp only [renderNode, renderList_append, renderList_map_tElem, renderAttrs,
        renderList, textC, henc, Bool.false_eq_true, if_false, List.append_assoc,
        List.append_nil, List.cons_append, List.nil_append]
      rfl

theorem renderList_balloons (bs : List Balloon) :
    renderList (bs.map balloonTree) = (bs.map Balloon.to_xml).flatten := by
  induction bs with
  | nil => rfl
  | cons b t ih => simp [renderList, ih, balloon_to_xml_eq_render]

theorem renderList_textC (s : List Char) : renderList (textC s) = s := by
  by_cases h : s.isEmpty
  · have hs : s = [] := by simpa [List.isEmpty_iff] using h
    subst hs
    rfl
  · simp only [Bool.not_eq_true] at h
    simp [textC, h, renderList, renderNode]

set_option maxRecDepth 40000 in
theorem to_xml_eq_render (d : Document) :
    Document.to_xml d = renderNode (docTree d) := by
  unfold Document.to_xml docTree
  simp only [tElem]
  simp only [renderNode, renderList, renderList_textC, renderList_balloons, renderAttrs,
    List.append_assoc, List.append_nil, List.cons_append, List.nil_append]
  rfl

/-! ## Cleanliness of a Document and well-formedness of its tree -/

/-- A string the XML decoder returns verbatim from a text node: every char is
an XML character other than `<`, `&`, `\x0d` (so roxmltree accepts it and
end-of-line normalization leaves it alone), and the string has no `]]>`
substring. -/
def cleanStr (s : List Char) : Bool :=
  s.all textStable && !containsSub s (cs "]]>")

/-- Unpack `cleanStr`. -/
theorem cleanStr_parts {s : List Char} (h : cleanStr s = true) :
    s.all textStable = true ∧ containsSub s (cs "]]>") = false := by
  simp only [cleanStr, Bool.and_eq_true, Bool.not_eq_true'] at h
  exact h

/-- A balloon whose rendered XML parses back: all line strings clean; if an
image is attached, its type label consists of chars an attribute value keeps
verbatim (XML chars other than `<`, `&`, `"` and tab, newline, carriage
return), its byte list is non-empty, and its entries are bytes (`< 256`). -/
def cleanBalloon (b : Balloon) : Bool :=
  b.tl_content.all cleanStr && b.pr_content.all cleanStr && b.comments.all cleanStr
    && (match b.balloon_img with
        | none => true
        | some i => i.img_type.all attrStable && !i.img_data.isEmpty
            && i.img_data.all (fun v => v < 256))

/-- A document whose rendered XML parses back: metadata strings and all
balloons clean. -/
def cleanDoc (d : Document) : Bool :=
  cleanStr d.METADATA_SCRIPT_VERSION && cleanStr d.METADATA_APP_VERSION
    && cleanStr d.METADATA_INFO && d.balloons.all cleanBalloon

/-- A list of element (non-text) nodes, each well formed, is `nodesOk`. -/
theorem nodesOk_of_all_elems :
    ∀ ks : List XNode, (∀ n ∈ ks, nodeOk n = true) →
      (∀ n ∈ ks, isTextNode n = false) → nodesOk ks = true := by
  intro ks
  induction ks with
  | nil => intro _ _; rfl
  | cons n t ih =>
    intro h1 h2
    cases t with
    | nil => simpa [nodesOk] using h1 n (List.mem_cons_self n [])
    | cons m r =>
      have hn := h1 n (List.mem_cons_self n (m :: r))
      have hnt := h2 n (List.mem_cons_self n (m :: r))
      have ht := ih (fun x hx => h1 x (List.mem_cons_of_mem n hx))
        (fun x hx => h2 x (List.mem_cons_of_mem n hx))
      simp [nodesOk, hn, hnt, ht]

/-- An element holding optional text is well formed when its name, attributes
and text are clean. -/
theorem nodeOk_textC_elem {nmL : List Char} {as : List (List Char × List Char)}
    {s : List Char} (hne : nmL.isEmpty = false) (hnm : nmL.all isNameChar = true)
    (has : as.all attrEntryOk = true) (hs : s.all textStable = true)
    (hsub : containsSub s (cs "]]>") = false) :
    nodeOk (XNode.elem nmL as (textC s)) = true := by
  by_cases h : s.isEmpty
  · simp [nodeOk, textC, h, nodesOk, hne, hnm, has]
  · simp only [Bool.not_eq_true] at h
    simp [nodeOk, textC, h, nodesOk, hne, hnm, has, hs, hsub]

/-- `tElem` nodes are well formed for clean text. -/
theorem nodeOk_tElem (nm : String) {s : List Char}
    (hne : (cs nm).isEmpty = false) (hnm : (cs nm).all isNameChar = true)
    (hs : s.all textStable = true) (hsub : containsSub s (cs "]]>") = false) :
    nodeOk (tElem nm s) = true :=
  nodeOk_textC_elem hne hnm rfl hs hsub

/-- `tElem` nodes are elements. -/
theorem isTextNode_tElem (nm : String) (s : List Char) :
    isTextNode (tElem nm s) = false := rfl

/-- Decimal digits are stable text chars. -/
theorem digit_textStable : ∀ m : Nat, m < 10 →
    textStable (Char.ofNat (48 + m)) = true := by
  intro m hm
  interval_cases m <;> decide

/-- Decimal digits are not `]`. -/
theorem digit_ne_rb : ∀ m : Nat, m < 10 → ¬(Char.ofNat (48 + m) = ']') := by
  intro m hm
  interval_cases m <;> decide

/-- `natToCharsAux` produces only stable chars. -/
theorem natToCharsAux_textStable : ∀ (f n : Nat),
    (natToCharsAux f n).all textStable = true := by
  intro f
  induction f with
  | zero => intro n; rfl
  | succ f ih =>
    intro n
    by_cases h : n < 10
    · simp [natToCharsAux, h, digit_textStable n h]
    · have h10 : n % 10 < 10 := Nat.mod_lt _ (by omega)
      simp [natToCharsAux, h, ih (n / 10), digit_textStable (n % 10) h10]

/-- `natToChars` produces only stable chars. -/
theorem natToChars_textStable (n : Nat) : (natToChars n).all textStable = true :=
  natToCharsAux_textStable (n + 1) n

/-- `natToCharsAux` never produces `]`. -/
theorem natToCharsAux_no_rb : ∀ (f n : Nat), ∀ c ∈ natToCharsAux f n, ¬(c = ']') := by
  intro f
  induction f with
  | zero => intro n c hc; simp [natToCharsAux] at hc
  | succ f ih =>
    intro n c hc
    by_cases h : n < 10
    · simp [natToCharsAux, h] at hc
      subst hc
      exact digit_ne_rb n h
    · have h10 : n % 10 < 10 := Nat.mod_lt _ (by omega)
      simp [natToCharsAux, h] at hc
      rcases hc with hc | hc
      · exact ih (n / 10) c hc
      · subst hc
        exact digit_ne_rb (n % 10) h10

/-- Decimal renderings contain no `]]>` substring. -/
theorem natToChars_no_rrb (n : Nat) : containsSub (natToChars n) (cs "]]>") = false :=
  containsSub_rrb_of_no_rb (natToCharsAux_no_rb (n + 1) n)

/-- The base64 alphabet consists of stable text chars. -/
theorem b64c_textStable (v : Nat) : textStable (b64c v) = true := by
  unfold b64c
  by_cases h1 : v < 26
  · simp only [h1, if_true]
    interval_cases v <;> decide
  · simp only [h1, if_false]
    by_cases h2 : v < 52
    · simp only [h2, if_true]
      interval_cases v <;> decide
    · simp only [h2, if_false]
      by_cases h3 : v < 62
      · simp only [h3, if_true]
        interval_cases v <;> decide
      · simp only [h3, if_false]
        by_cases h4 : v = 62 <;> simp [h4] <;> decide

/-- The base64 alphabet avoids `]`. -/
theorem b64c_ne_rb (v : Nat) : ¬(b64c v = ']') := by
  unfold b64c
  by_cases h1 : v < 26
  · simp only [h1, if_true]
    interval_cases v <;> decide
  · simp only [h1, if_false]
    by_cases h2 : v < 52
    · simp only [h2, if_true]
      interval_cases v <;> decide
    · simp only [h2, if_false]
      by_cases h3 : v < 62
      · simp only [h3, if_true]
        interval_cases v <;> decide
      · simp only [h3, if_false]
        by_cases h4 : v = 62 <;> simp [h4] <;> decide

/-- Base64 encodings contain only stable chars. -/
theorem b64encode_textStable : ∀ (n : Nat) (data : List Nat), data.length ≤ n →
    (b64encode data).all textStable = true := by
  intro n
  induction n with
  | zero =>
    intro data hl
    match data with
    | [] => rfl
  | succ n ih =>
    intro data hl
    match data with
    | [] => rfl
    | [a] => simp [b64encode, b64c_textStable]
    | [a, b] => simp [b64encode, b64c_textStable]
    | a :: b :: c :: rest =>
      have hr : rest.length ≤ n := by simp at hl; omega
      simp [b64encode, b64c_textStable, List.all_append, ih rest hr]

/-- Base64 encodings never contain `]`. -/
theorem b64encode_no_rb : ∀ (n : Nat) (data : List Nat), data.length ≤ n →
    ∀ c ∈ b64encode data, ¬(c = ']') := by
  intro n
  induction n with
  | zero =>
    intro data hl c hc
    match data with
    | [] => simp [b64encode] at hc
  | succ n ih =>
    intro data hl c hc
    match data with
    | [] => simp [b64encode] at hc
    | [a] =>
      simp [b64encode] at hc
      rcases hc with rfl | rfl <;> exact b64c_ne_rb _
    | [a, b] =>
      simp [b64encode] at hc
      rcases hc with rfl | rfl | rfl <;> exact b64c_ne_rb _
    | a :: b :: d :: rest =>
      have hr : rest.length ≤ n := by simp at hl; omega
      simp [b64encode] at hc
      rcases hc with rfl | rfl | rfl | rfl | hc
      · exact b64c_ne_rb _
      · exact b64c_ne_rb _
      · exact b64c_ne_rb _
      · exact b64c_ne_rb _
      · exact ih rest hr c hc

/-- Base64 encodings contain no `]]>` substring. -/
theorem b64encode_no_rrb (data : List Nat) :
    containsSub (b64encode data) (cs "]]>") = false :=
  containsSub_rrb_of_no_rb (b64encode_no_rb data.length data le_rfl)

/-- Base64 encodings of non-empty byte lists are non-empty. -/
theorem b64encode_ne_nil (data : List Nat) (h : data ≠ []) : b64encode data ≠ [] := by
  match data with
  | [] => exact absurd rfl h
  | [a] => simp [b64encode]
  | [a, b] => simp [b64encode]
  | a :: b :: c :: rest => simp [b64encode]

/-- The XML `type` attribute value of every balloon type is stable. -/
theorem battr_attrStable (t : TYPES) : (battr t).all attrStable = true := by
  cases t <;> decide

/-- A clean balloon's tree is well formed. -/
theorem nodeOk_balloonTree (b : Balloon) (hb : cleanBalloon b = true) :
    nodeOk (balloonTree b) = true := by
  simp only [cleanBalloon, Bool.and_eq_true] at hb
  obtain ⟨⟨⟨htl, hpr⟩, hcm⟩, himg⟩ := hb
  have hkids : ∀ n ∈ (b.tl_content.map (tElem "TL") ++ b.pr_content.map (tElem "PR")
      ++ b.comments.map (tElem "Comment")
      ++ (match b.balloon_img with
          | none => []
          | some i => [XNode.elem (cs "img") [(cs "type", i.img_type)]
              (textC (b64encode i.img_data))])),
      nodeOk n = true ∧ isTextNode n = false := by
    intro n hn
    simp only [List.mem_append, List.mem_map] at hn
    rcases hn with ((⟨s, hs, rfl⟩ | ⟨s, hs, rfl⟩) | ⟨s, hs, rfl⟩) | hn
    · exact ⟨nodeOk_tElem "TL" (by decide) (by decide)
        (cleanStr_parts (List.all_eq_true.mp htl s hs)).1
        (cleanStr_parts (List.all_eq_true.mp htl s hs)).2, rfl⟩
    · exact ⟨nodeOk_tElem "PR" (by decide) (by decide)
        (cleanStr_parts (List.all_eq_true.mp hpr s hs)).1
        (cleanStr_parts (List.all_eq_true.mp hpr s hs)).2, rfl⟩
    · exact ⟨nodeOk_tElem "Comment" (by decide) (by decide)
        (cleanStr_parts (List.all_eq_true.mp hcm s hs)).1
        (cleanStr_parts (List.all_eq_true.mp hcm s hs)).2, rfl⟩
    · cases hbi : b.balloon_img with
      | none => rw [hbi] at hn; simp at hn
      | some i =>
        rw [hbi] at hn himg
        simp only [List.mem_singleton] at hn
        subst hn
        simp only [Bool.and_eq_true, Bool.not_eq_true'] at himg
        obtain ⟨⟨hit, -⟩, -⟩ := himg
        refine ⟨nodeOk_textC_elem (by decide) (by decide) ?_ ?_ ?_, rfl⟩
        · simp only [List.all_cons, List.all_nil, Bool.and_true, attrEntryOk]
          rw [hit]
          decide
        · exact b64encode_textStable i.img_data.length i.img_data le_rfl
        · exact b64encode_no_rrb i.img_data
  have hok1 := nodesOk_of_all_elems _ (fun n hn => (hkids n hn).1)
    (fun n hn => (hkids n hn).2)
  simp only [balloonTree, nodeOk, Bool.and_eq_true]
  refine ⟨⟨⟨by decide, by decide⟩, ?_⟩, hok1⟩
  simp only [List.all_cons, List.all_nil, Bool.and_true, attrEntryOk]
  rw [battr_attrStable b.btype]
  decide

/-- A clean document's tree is well formed. -/
theorem nodeOk_docTree (d : Document) (hd : cleanDoc d = true) :
    nodeOk (docTree d) = true := by
  simp only [cleanDoc, Bool.and_eq_true] at hd
  obtain ⟨⟨⟨hs, ha⟩, hi⟩, hbs⟩ := hd
  have hkidsM : ∀ n ∈ [tElem "Script" d.METADATA_SCRIPT_VERSION,
      tElem "App" d.METADATA_APP_VERSION,
      tElem "Info" d.METADATA_INFO,
      tElem "TLLength" (natToChars d.tl_chars),
      tElem "PRLength" (natToChars d.pr_chars),
      tElem "CMLength" (natToChars d.comment_chars),
      tElem "BalloonCount" (natToChars d.balloons.length),
      tElem "LineCount" (natToChars d.line_count)],
      nodeOk n = true ∧ isTextNode n = false := by
    intro n hn
    simp only [List.mem_cons, List.not_mem_nil, or_false] at hn
    rcases hn with rfl | rfl | rfl | rfl | rfl | rfl | rfl | rfl
    · exact ⟨nodeOk_tElem "Script" (by decide) (by decide)
        (cleanStr_parts hs).1 (cleanStr_parts hs).2, rfl⟩
    · exact ⟨nodeOk_tElem "App" (by decide) (by decide)
        (cleanStr_parts ha).1 (cleanStr_parts ha).2, rfl⟩
    · exact ⟨nodeOk_tElem "Info" (by decide) (by decide)
        (cleanStr_parts hi).1 (cleanStr_parts hi).2, rfl⟩
    · exact ⟨nodeOk_tElem "TLLength" (by decide) (by decide)
        (natToChars_textStable d.tl_chars) (natToChars_no_rrb d.tl_chars), rfl⟩
    · exact ⟨nodeOk_tElem "PRLength" (by decide) (by decide)
        (natToChars_textStable d.pr_chars) (natToChars_no_rrb d.pr_chars), rfl⟩
    · exact ⟨nodeOk_tElem "CMLength" (by decide) (by decide)
        (natToChars_textStable d.comment_chars)
        (natToChars_no_rrb d.comment_chars), rfl⟩
    · exact ⟨nodeOk_tElem "BalloonCount" (by decide) (by decide)
        (natToChars_textStable d.balloons.length)
        (natToChars_no_rrb d.balloons.length), rfl⟩
    · exact ⟨nodeOk_tElem "LineCount" (by decide) (by decide)
        (natToChars_textStable d.line_count)
        (natToChars_no_rrb d.line_count), rfl⟩
  have hmetaOk : nodeOk (XNode.elem (cs "Metadata") []
      [tElem "Script" d.METADATA_SCRIPT_VERSION,
       tElem "App" d.METADATA_APP_VERSION,
       tElem "Info" d.METADATA_INFO,
       tElem "TLLength" (natToChars d.tl_chars),
       tElem "PRLength" (natToChars d.pr_chars),
       tElem "CMLength" (natToChars d.comment_chars),
       tElem "BalloonCount" (natToChars d.balloons.length),
       tElem "LineCount" (natToChars d.line_count)]) = true := by
    simp only [nodeOk, Bool.and_eq_true]
    exact ⟨⟨⟨by decide, by decide⟩, rfl⟩,
      nodesOk_of_all_elems _ (fun n hn => (hkidsM n hn).1) (fun n hn => (hkidsM n hn).2)⟩
  have hballoonsOk : nodeOk (XNode.elem (cs "Balloons") []
      (d.balloons.map balloonTree)) = true := by
    simp only [nodeOk, Bool.and_eq_true]
    refine ⟨⟨⟨by decide, by decide⟩, rfl⟩, nodesOk_of_all_elems _ ?_ ?_⟩
    · intro n hn
      simp only [List.mem_map] at hn
      obtain ⟨b, hb, rfl⟩ := hn
      exact nodeOk_balloonTree b (List.all_eq_true.mp hbs b hb)
    · intro n hn
      simp only [List.mem_map] at hn
      obtain ⟨b, hb, rfl⟩ := hn
      rfl
  simp only [docTree, nodeOk, Bool.and_eq_true]
  refine ⟨⟨⟨by decide, by decide⟩, rfl⟩, nodesOk_of_all_elems _ ?_ ?_⟩
  · intro n hn
    simp only [List.mem_cons, List.not_mem_nil, or_false] at hn
    rcases hn with rfl | rfl
    · exact hmetaOk
    · exact hballoonsOk
  · intro n hn
    simp only [List.mem_cons, List.not_mem_nil, or_false] at hn
    rcases hn with rfl | rfl <;> rfl

/-- Parsing a clean document's rendered XML yields its canonical tree. -/
theorem parseXml_to_xml (d : Document) (hd : cleanDoc d = true) :
    parseXml (Document.to_xml d) = some (docTree d) := by
  rw [to_xml_eq_render]
  have h := nodeOk_docTree d hd
  unfold docTree at h ⊢
  exact parseXml_render _ _ _ h

/-! ## Decoding the canonical tree back to the Document -/

/-- The alphabet decoder inverts the encoder on 6-bit values. -/
theorem b64d_b64c_fin : ∀ v : Fin 64, b64d (b64c v.val) = some v.val := by decide

/-- The alphabet decoder inverts the encoder. -/
theorem b64d_b64c (v : Nat) (h : v < 64) : b64d (b64c v) = some v :=
  b64d_b64c_fin ⟨v, h⟩

/-- `B64.decode` inverts `B64.encode` on byte sequences. -/
theorem b64_roundtrip : ∀ (n : Nat) (data : List Nat), data.length ≤ n →
    data.all (fun v => v < 256) = true → b64decode (b64encode data) = some data := by
  intro n
  induction n with
  | zero =>
    intro data hl _
    match data with
    | [] => rfl
  | succ n ih =>
    intro data hl hlt
    match data with
    | [] => rfl
    | [a] =>
      simp only [List.all_cons, List.all_nil, Bool.and_true, decide_eq_true_eq] at hlt
      simp only [b64encode, b64decode,
        b64d_b64c (a / 4) (by omega), b64d_b64c (a % 4 * 16) (by omega),
        Option.bind_eq_bind, Option.some_bind]
      have h16 : a % 4 * 16 % 16 = 0 := by omega
      simp [h16]
      omega
    | [a, b] =>
      simp only [List.all_cons, List.all_nil, Bool.and_true, Bool.and_eq_true,
        decide_eq_true_eq] at hlt
      obtain ⟨ha, hb⟩ := hlt
      simp only [b64encode, b64decode,
        b64d_b64c (a / 4) (by omega), b64d_b64c (a % 4 * 16 + b / 16) (by omega),
        b64d_b64c (b % 16 * 4) (by omega),
        Option.bind_eq_bind, Option.some_bind]
      have h4 : b % 16 * 4 % 4 = 0 := by omega
      simp [h4]
      omega
    | a :: b :: c :: rest =>
      simp only [List.all_cons, Bool.and_eq_true, decide_eq_true_eq] at hlt
      obtain ⟨ha, hb, hc, hrest⟩ := hlt
      have hr : rest.length ≤ n := by simp at hl; omega
      have hrec := ih rest hr hrest
      simp only [b64encode]
      simp only [b64decode,
        b64d_b64c (a / 4) (by omega), b64d_b64c (a % 4 * 16 + b / 16) (by omega),
        b64d_b64c (b % 16 * 4 + c / 64) (by omega), b64d_b64c (c % 64) (by omega),
        hrec, Option.bind_eq_bind, Option.some_bind]
      simp
      omega

/-- `findElemL` finds nothing among text children. -/
theorem findElemL_textC (nm : List Char) (s : List Char) :
    findElemL nm (textC s) = none := by
  by_cases h : s.isEmpty
  · have hs : s = [] := by simpa [List.isEmpty_iff] using h
    subst hs
    rfl
  · simp only [Bool.not_eq_true] at h
    simp [textC, h, findElemL, findElem]

/-- `findElem` fails on a `tElem` with a different tag. -/
theorem findElem_tElem (nm2 : List Char) (nm : String) (s : List Char)
    (h : ¬(cs nm = nm2)) : findElem nm2 (tElem nm s) = none := by
  simp [tElem, findElem, h, findElemL_textC]

/-- `Node::text().unwrap_or("")` on a `tElem` recovers the string. -/
theorem nodeText_tElem_getD (nm : String) (s : List Char) :
    (nodeText (tElem nm s)).getD [] = s := by
  by_cases h : s.isEmpty
  · have hs : s = [] := by simpa [List.isEmpty_iff] using h
    subst hs
    rfl
  · simp only [Bool.not_eq_true] at h
    simp [tElem, textC, h, nodeText]

/-- `Node::text().unwrap_or("")` on any element holding `textC s` recovers
`s`. -/
theorem nodeText_textC_getD (n : List Char) (as : List (List Char × List Char))
    (s : List Char) : (nodeText (XNode.elem n as (textC s))).getD [] = s := by
  by_cases h : s.isEmpty
  · have hs : s = [] := by simpa [List.isEmpty_iff] using h
    subst hs
    rfl
  · simp only [Bool.not_eq_true] at h
    simp [textC, h, nodeText]

/-- The `type`-attribute mapping inverts the rendered attribute names. -/
theorem btypeOfAttr_battr (t : TYPES) : btypeOfAttr (battr t) = t := by
  cases t <;> rfl

/-- Filtering a map whose images all satisfy the predicate keeps it intact. -/
theorem filter_map_true {α β : Type} {p : β → Bool} {f : α → β}
    (h : ∀ s, p (f s) = true) : ∀ ls : List α, (ls.map f).filter p = ls.map f := by
  intro ls
  induction ls with
  | nil => rfl
  | cons s t ih => simp [h, ih]

/-- Filtering a map whose images all fail the predicate removes it. -/
theorem filter_map_false {α β : Type} {p : β → Bool} {f : α → β}
    (h : ∀ s, p (f s) = false) : ∀ ls : List α, (ls.map f).filter p = [] := by
  intro ls
  induction ls with
  | nil => rfl
  | cons s t ih => simp [h, ih]

/-- `find?` skips a map whose images all fail the predicate. -/
theorem find?_map_none {α β : Type} {p : β → Bool} {f : α → β}
    (h : ∀ s, p (f s) = false) :
    ∀ (ls : List α) (l2 : List β), ((ls.map f) ++ l2).find? p = l2.find? p := by
  intro ls
  induction ls with
  | nil => intro l2; rfl
  | cons s t ih => intro l2; simp [List.find?, h s, ih l2]

/-- Filtering keeps `tElem` nodes whose tag matches. -/
theorem filter_tElem_true (nm2 : List Char) (nm : String) (h : (cs nm == nm2) = true)
    (ls : List (List Char)) :
    (ls.map (tElem nm)).filter (isElemNamed nm2) = ls.map (tElem nm) :=
  @filter_map_true _ _ (isElemNamed nm2) (tElem nm) (fun _ => h) ls

/-- Filtering drops `tElem` nodes whose tag differs. -/
theorem filter_tElem_false (nm2 : List Char) (nm : String) (h : (cs nm == nm2) = false)
    (ls : List (List Char)) :
    (ls.map (tElem nm)).filter (isElemNamed nm2) = [] :=
  @filter_map_false _ _ (isElemNamed nm2) (tElem nm) (fun _ => h) ls

/-- `find?` skips `tElem` nodes whose tag differs. -/
theorem find?_tElem_skip (nm2 : List Char) (nm : String) (h : (cs nm == nm2) = false)
    (ls : List (List Char)) (l2 : List XNode) :
    ((ls.map (tElem nm)) ++ l2).find? (isElemNamed nm2) = l2.find? (isElemNamed nm2) :=
  @find?_map_none _ _ (isElemNamed nm2) (tElem nm) (fun _ => h) ls l2

/-- Decoding the canonical tree of a clean balloon recovers the balloon. -/
theorem balloonOfNode_balloonTree (b : Balloon) (hb : cleanBalloon b = true) :
    balloonOfNode (balloonTree b) = Except.ok b := by
  obtain ⟨tl, pr, cm, bt, img⟩ := b
  simp only [cleanBalloon, Bool.and_eq_true] at hb
  obtain ⟨⟨⟨htl, hpr⟩, hcm⟩, himg⟩ := hb
  have hmTL : (tl.map (tElem "TL")).map (fun n => (nodeText n).getD []) = tl := by
    simp [List.map_map, Function.comp_def, nodeText_tElem_getD]
  have hmPR : (pr.map (tElem "PR")).map (fun n => (nodeText n).getD []) = pr := by
    simp [List.map_map, Function.comp_def, nodeText_tElem_getD]
  have hmCM : (cm.map (tElem "Comment")).map (fun n => (nodeText n).getD []) = cm := by
    simp [List.map_map, Function.comp_def, nodeText_tElem_getD]
  cases img with
  | none =>
    have hattr : attrOf (cs "type") (balloonTree ⟨tl, pr, cm, bt, none⟩)
        = some (battr bt) := rfl
    have hkids : childrenOf (balloonTree ⟨tl, pr, cm, bt, none⟩)
        = tl.map (tElem "TL") ++ pr.map (tElem "PR") ++ cm.map (tElem "Comment") ++ [] :=
      rfl
    have hfTL : (tl.map (tElem "TL") ++ pr.map (tElem "PR") ++ cm.map (tElem "Comment")
        ++ []).filter (isElemNamed (cs "TL")) = tl.map (tElem "TL") := by
      simp only [List.filter_append,
        filter_tElem_true (cs "TL") "TL" (by decide) tl,
        filter_tElem_false (cs "TL") "PR" (by decide) pr,
        filter_tElem_false (cs "TL") "Comment" (by decide) cm]
      simp
    have hfPR : (tl.map (tElem "TL") ++ pr.map (tElem "PR") ++ cm.map (tElem "Comment")
        ++ []).filter (isElemNamed (cs "PR")) = pr.map (tElem "PR") := by
      simp only [List.filter_append,
        filter_tElem_false (cs "PR") "TL" (by decide) tl,
        filter_tElem_true (cs "PR") "PR" (by decide) pr,
        filter_tElem_false (cs "PR") "Comment" (by decide) cm]
      simp
    have hfCM : (tl.map (tElem "TL") ++ pr.map (tElem "PR") ++ cm.map (tElem "Comment")
        ++ []).filter (isElemNamed (cs "Comment")) = cm.map (tElem "Comment") := by
      simp only [List.filter_append,
        filter_tElem_false (cs "Comment") "TL" (by decide) tl,
        filter_tElem_false (cs "Comment") "PR" (by decide) pr,
        filter_tElem_true (cs "Comment") "Comment" (by decide) cm]
      simp
    have hfimg : (tl.map (tElem "TL") ++ pr.map (tElem "PR") ++ cm.map (tElem "Comment")
        ++ ([] : List XNode)).find? (isElemNamed (cs "img")) = none := by
      rw [List.append_assoc, List.append_assoc,
        find?_tElem_skip (cs "img") "TL" (by decide) tl _,
        find?_tElem_skip (cs "img") "PR" (by decide) pr _,
        find?_tElem_skip (cs "img") "Comment" (by decide) cm _]
      rfl
    unfold balloonOfNode
    rw [hattr, hkids]
    simp only [hfTL, hfPR, hfCM, hfimg, hmTL, hmPR, hmCM, btypeOfAttr_battr]
  | some i =>
    obtain ⟨it, idata⟩ := i
    simp only [Bool.and_eq_true, Bool.not_eq_true'] at himg
    obtain ⟨⟨hit, hidne⟩, hbytes⟩ := himg
    have hdne : idata ≠ [] := by
      intro hcontra
      rw [hcontra] at hidne
      simp at hidne
    have hene : (b64encode idata).isEmpty = false := by
      have hnn := b64encode_ne_nil idata hdne
      cases henc : b64encode idata with
      | nil => exact absurd henc hnn
      | cons x t => rfl
    have hattr : attrOf (cs "type") (balloonTree ⟨tl, pr, cm, bt, some ⟨it, idata⟩⟩)
        = some (battr bt) := rfl
    have hkids : childrenOf (balloonTree ⟨tl, pr, cm, bt, some ⟨it, idata⟩⟩)
        = tl.map (tElem "TL") ++ pr.map (tElem "PR") ++ cm.map (tElem "Comment")
          ++ [XNode.elem (cs "img") [(cs "type", it)] (textC (b64encode idata))] := rfl
    have hfTL : (tl.map (tElem "TL") ++ pr.map (tElem "PR") ++ cm.map (tElem "Comment")
        ++ [XNode.elem (cs "img") [(cs "type", it)] (textC (b64encode idata))]).filter
          (isElemNamed (cs "TL")) = tl.map (tElem "TL") := by
      simp only [List.filter_append,
        filter_tElem_true (cs "TL") "TL" (by decide) tl,
        filter_tElem_false (cs "TL") "PR" (by decide) pr,
        filter_tElem_false (cs "TL") "Comment" (by decide) cm]
      simp [List.filter, isElemNamed, (by decide : ((cs "img" == cs "TL") = false))]
    have hfPR : (tl.map (tElem "TL") ++ pr.map (tElem "PR") ++ cm.map (tElem "Comment")
        ++ [XNode.elem (cs "img") [(cs "type", it)] (textC (b64encode idata))]).filter
          (isElemNamed (cs "PR")) = pr.map (tElem "PR") := by
      simp only [List.filter_append,
        filter_tElem_false (cs "PR") "TL" (by decide) tl,
        filter_tElem_true (cs "PR") "PR" (by decide) pr,
        filter_tElem_false (cs "PR") "Comment" (by decide) cm]
      simp [List.filter, isElemNamed, (by decide : ((cs "img" == cs "PR") = false))]
    have hfCM : (tl.map (tElem "TL") ++ pr.map (tElem "PR") ++ cm.map (tElem "Comment")
        ++ [XNode.elem (cs "img") [(cs "type", it)] (textC (b64encode idata))]).filter
          (isElemNamed (cs "Comment")) = cm.map (tElem "Comment") := by
      simp only [List.filter_append,
        filter_tElem_false (cs "Comment") "TL" (by decide) tl,
        filter_tElem_false (cs "Comment") "PR" (by decide) pr,
        filter_tElem_true (cs "Comment") "Comment" (by decide) cm]
      simp [List.filter, isElemNamed, (by decide : ((cs "img" == cs "Comment") = false))]
    have hfimg : (tl.map (tElem "TL") ++ pr.map (tElem "PR") ++ cm.map (tElem "Comment")
        ++ [XNode.elem (cs "img") [(cs "type", it)] (textC (b64encode idata))]).find?
          (isElemNamed (cs "img"))
        = some (XNode.elem (cs "img") [(cs "type", it)] (textC (b64encode idata))) := by
      rw [List.append_assoc, List.append_assoc,
        find?_tElem_skip (cs "img") "TL" (by decide) tl _,
        find?_tElem_skip (cs "img") "PR" (by decide) pr _,
        find?_tElem_skip (cs "img") "Comment" (by decide) cm _]
      rfl
    have hnt : nodeText (XNode.elem (cs "img") [(cs "type", it)]
        (textC (b64encode idata))) = some (b64encode idata) := by
      simp [textC, hene, nodeText]
    have hdec := b64_roundtrip idata.length idata le_rfl hbytes
    unfold balloonOfNode
    rw [hattr, hkids]
    simp only [hfTL, hfPR, hfCM, hfimg, hmTL, hmPR, hmCM, btypeOfAttr_battr, hnt, hdec]
    rfl

/-- Decoding the canonical trees of a clean balloon list recovers the list. -/
theorem balloonsOfNodes_map (bs : List Balloon) (h : bs.all cleanBalloon = true) :
    balloonsOfNodes (bs.map balloonTree) = Except.ok bs := by
  induction bs with
  | nil => rfl
  | cons b t ih =>
    simp only [List.all_cons, Bool.and_eq_true] at h
    simp only [balloonsOfNodes, List.map_cons, balloonOfNode_balloonTree b h.1, ih h.2]
    rfl

/-- `findElem` on a differently named element descends into the children. -/
theorem findElem_elem_ne (nm2 n : List Char) (as : List (List Char × List Char))
    (kids : List XNode) (h : ¬(n = nm2)) :
    findElem nm2 (XNode.elem n as kids) = findElemL nm2 kids := by
  simp [findElem, h]

/-- `findElem` on a matching element returns it. -/
theorem findElem_elem_eq (n : List Char) (as : List (List Char × List Char))
    (kids : List XNode) :
    findElem n (XNode.elem n as kids) = some (XNode.elem n as kids) := by
  simp [findElem]

/-- `findElemL` skips a node in which nothing is found. -/
theorem findElemL_cons_none {nm2 : List Char} {x : XNode}
    (h : findElem nm2 x = none) (rest : List XNode) :
    findElemL nm2 (x :: rest) = findElemL nm2 rest := by
  simp [findElemL, h]

/-- `findElemL` returns the first hit. -/
theorem findElemL_cons_some {nm2 : List Char} {x r : XNode}
    (h : findElem nm2 x = some r) (rest : List XNode) :
    findElemL nm2 (x :: rest) = some r := by
  simp [findElemL, h]

/-- Decoding the rendered XML of a clean document recovers the document. -/
theorem xml_to_doc_to_xml (d : Document) (hd : cleanDoc d = true) :
    xml_to_doc (Document.to_xml d) = Except.ok d := by
  obtain ⟨SV, AV, IV, bs⟩ := d
  have hd' := hd
  simp only [cleanDoc, Bool.and_eq_true] at hd'
  obtain ⟨⟨⟨hs, ha⟩, hi⟩, hbs⟩ := hd'
  have hfm : findElem (cs "Metadata") (docTree ⟨SV, AV, IV, bs⟩)
      = some (XNode.elem (cs "Metadata") []
          [tElem "Script" SV, tElem "App" AV, tElem "Info" IV,
           tElem "TLLength" (natToChars (Document.tl_chars ⟨SV, AV, IV, bs⟩)),
           tElem "PRLength" (natToChars (Document.pr_chars ⟨SV, AV, IV, bs⟩)),
           tElem "CMLength" (natToChars (Document.comment_chars ⟨SV, AV, IV, bs⟩)),
           tElem "BalloonCount" (natToChars bs.length),
           tElem "LineCount" (natToChars (Document.line_count ⟨SV, AV, IV, bs⟩))]) := rfl
  have h1 : findElem (cs "Balloons") (tElem "Script" SV) = none :=
    findElem_tElem _ "Script" _ (by decide)
  have h2 : findElem (cs "Balloons") (tElem "App" AV) = none :=
    findElem_tElem _ "App" _ (by decide)
  have h3 : findElem (cs "Balloons") (tElem "Info" IV) = none :=
    findElem_tElem _ "Info" _ (by decide)
  have h4 : findElem (cs "Balloons")
      (tElem "TLLength" (natToChars (Document.tl_chars ⟨SV, AV, IV, bs⟩))) = none :=
    findElem_tElem _ "TLLength" _ (by decide)
  have h5 : findElem (cs "Balloons")
      (tElem "PRLength" (natToChars (Document.pr_chars ⟨SV, AV, IV, bs⟩))) = none :=
    findElem_tElem _ "PRLength" _ (by decide)
  have h6 : findElem (cs "Balloons")
      (tElem "CMLength" (natToChars (Document.comment_chars ⟨SV, AV, IV, bs⟩))) = none :=
    findElem_tElem _ "CMLength" _ (by decide)
  have h7 : findElem (cs "Balloons")
      (tElem "BalloonCount" (natToChars bs.length)) = none :=
    findElem_tElem _ "BalloonCount" _ (by decide)
  have h8 : findElem (cs "Balloons")
      (tElem "LineCount" (natToChars (Document.line_count ⟨SV, AV, IV, bs⟩))) = none :=
    findElem_tElem _ "LineCount" _ (by decide)
  have hmnone : findElem (cs "Balloons") (XNode.elem (cs "Metadata") []
      [tElem "Script" SV, tElem "App" AV, tElem "Info" IV,
       tElem "TLLength" (natToChars (Document.tl_chars ⟨SV, AV, IV, bs⟩)),
       tElem "PRLength" (natToChars (Document.pr_chars ⟨SV, AV, IV, bs⟩)),
       tElem "CMLength" (natToChars (Document.comment_chars ⟨SV, AV, IV, bs⟩)),
       tElem "BalloonCount" (natToChars bs.length),
       tElem "LineCount" (natToChars (Document.line_count ⟨SV, AV, IV, bs⟩))])
      = none := by
    rw [findElem_elem_ne _ _ _ _ (by decide),
      findElemL_cons_none h1, findElemL_cons_none h2, findElemL_cons_none h3,
      findElemL_cons_none h4, findElemL_cons_none h5, findElemL_cons_none h6,
      findElemL_cons_none h7, findElemL_cons_none h8]
    rfl
  have hfb : findElem (cs "Balloons") (docTree ⟨SV, AV, IV, bs⟩)
      = some (XNode.elem (cs "Balloons") [] (bs.map balloonTree)) := by
    show findElem (cs "Balloons") (XNode.elem (cs "Document") [] _) = _
    rw [findElem_elem_ne _ _ _ _ (by decide), findElemL_cons_none hmnone,
      findElemL_cons_some (findElem_elem_eq _ _ _)]
  unfold xml_to_doc
  rw [parseXml_to_xml _ hd]
  simp only [hfm, hfb, childrenOf, findChild, List.find?, isElemNamed,
    (by decide : ((cs "Script" == cs "Script") = true)),
    (by decide : ((cs "Script" == cs "App") = false)),
    (by decide : ((cs "App" == cs "App") = true)),
    (by decide : ((cs "Script" == cs "Info") = false)),
    (by decide : ((cs "App" == cs "Info") = false)),
    (by decide : ((cs "Info" == cs "Info") = true)),
    tElem, balloonsOfNodes_map bs hbs, Except.map]
  simp only [nodeText_textC_getD]

/-- C1 as amended: the XML round trip holds for every Document whose strings
are XML-clean — every char of the metadata strings and line contents is an
XML 1.0 character other than `<`, `&` and carriage return and no such
string contains `]]>`; image type labels consist of XML chars other than
`<`, `&`, `"`, tab, `\n` and carriage return — and whose attached images
(if any) have non-empty byte content (bytes `< 256`): decoding the rendered
XML succeeds and the re-rendered XML is byte-for-byte identical (indeed the
decoded Document equals the original). Without these conditions the claim
is false: see the counterexample, and note that a carriage return in a
line, a tab in an image type label, or a control char anywhere would be
normalized away or rejected by the parser. -/
theorem xml_roundtrip_clean (d : Document) (hd : cleanDoc d = true) :
    ∃ d2 : Document, xml_to_doc (Document.to_xml d) = Except.ok d2
      ∧ Document.to_xml d2 = Document.to_xml d :=
  ⟨d, xml_to_doc_to_xml d hd, rfl⟩

/-- A clean document with text, a non-default type and an attached image. -/
def c1witnessDoc : Document :=
  { balloons :=
      [{ tl_content := [cs "hi"], btype := TYPES.ST,
         balloon_img := some { img_type := cs "png", img_data := [1, 2, 255] } }] }

/-- Witness for the amended C1 at a concrete clean document with an image. -/
theorem xml_roundtrip_clean_witness :
    cleanDoc c1witnessDoc = true
    ∧ ∃ d2 : Document, xml_to_doc (Document.to_xml c1witnessDoc) = Except.ok d2
        ∧ Document.to_xml d2 = Document.to_xml c1witnessDoc :=
  ⟨by decide, xml_roundtrip_clean c1witnessDoc (by decide)⟩
